import Mathlib

/-!
Verification development for the FortiGuard application-catalog scraper
(`main.py`).  The HTML documents returned by the network are modelled as a
tree of elements (`HNode`), the network itself as an oracle mapping a URL
and an attempt index to an optional parsed document, and the scraping
functions are translated one-to-one from the Python source.  Machine floats
used only as delay durations are modelled as rationals; the two anchored
regular expressions of the row extractor are modelled by equivalent
first-order scanning functions.
-/

/-! ## Characters and strings -/

/-- Right strip: remove trailing whitespace characters, as Python rstrip
over the regex class backslash-s does. -/
def rstripChars (cs : List Char) : List Char :=
  (cs.reverse.dropWhile Char.isWhitespace).reverse

/-- Left strip of leading whitespace. -/
def lstripChars (cs : List Char) : List Char :=
  cs.dropWhile Char.isWhitespace

/-- Python str.strip over a character list. -/
def stripChars (cs : List Char) : List Char :=
  rstripChars (lstripChars cs)

/-- Python str.strip. -/
def stripStr (s : String) : String :=
  String.mk (stripChars s.data)

/-- Does the character list hay contain the character list needle as a
contiguous sublist?  Models an unanchored regex search for a literal. -/
def containsSubChars (needle : List Char) : List Char → Bool
  | [] => needle.isEmpty
  | c :: t => needle.isPrefixOf (c :: t) || containsSubChars needle t

/-- Substring containment on strings (models `needle in hay` style regex
searches for a literal pattern). -/
def containsSubStr (hay needle : String) : Bool :=
  containsSubChars needle.data hay.data

/-- Accumulate a decimal number from a digit list. -/
def digitsToNatAux (acc : Nat) : List Char → Nat
  | [] => acc
  | c :: t => digitsToNatAux (acc * 10 + (c.toNat - '0'.toNat)) t

/-- The literal part of the row navigation-target pattern. -/
def appcontrolPat : List Char := "/appcontrol/".data

/-- Model of the Python search for the pattern slash-appcontrol-slash
followed by one or more digits, returning the digits of the leftmost match
as a number (the regex group 1 with the greedy digit run). -/
def findAppcontrolIdChars : List Char → Option Nat
  | [] => none
  | c :: t =>
    if appcontrolPat.isPrefixOf (c :: t) then
      let ds := ((c :: t).drop appcontrolPat.length).takeWhile Char.isDigit
      if ds.isEmpty then findAppcontrolIdChars t
      else some (digitsToNatAux 0 ds)
    else findAppcontrolIdChars t

/-- Search an onclick attribute value for the item-detail URL pattern and
extract the application id. -/
def findAppcontrolId (s : String) : Option Nat :=
  findAppcontrolIdChars s.data

/-! ## The HTML document model -/

/-- A parsed HTML node: either a text fragment or an element with a tag
name, an attribute list and children. -/
inductive HNode where
  | text (s : String)
  | elem (name : String) (attrs : List (String × String)) (children : List HNode)

mutual

/-- All descendants of a node, in document (preorder) fashion, the node
itself excluded: the search space of a BeautifulSoup find or find_all call
on that node. -/
def nodeDesc : HNode → List HNode
  | .text _ => []
  | .elem _ _ cs => descList cs

/-- Descendant closure of a sibling list, in document order. -/
def descList : List HNode → List HNode
  | [] => []
  | c :: rest => c :: (nodeDesc c ++ descList rest)

end

/-- The direct children of a node. -/
def childrenOf : HNode → List HNode
  | .text _ => []
  | .elem _ _ cs => cs

mutual

/-- Concatenated text of a subtree: BeautifulSoup get_text. -/
def getTextN : HNode → String
  | .text s => s
  | .elem _ _ cs => textList cs

/-- Concatenated text of a sibling list. -/
def textList : List HNode → String
  | [] => ""
  | c :: rest => getTextN c ++ textList rest

end

/-- Look up an attribute of an element. -/
def attrOf (n : HNode) (k : String) : Option String :=
  match n with
  | .text _ => none
  | .elem _ attrs _ => (attrs.find? (fun kv => kv.1 == k)).map (fun kv => kv.2)

/-- The tag name of an element node. -/
def tagNameOf : HNode → Option String
  | .text _ => none
  | .elem name _ _ => some name

/-- Is this an element with the given tag name? -/
def isElem (name : String) (n : HNode) : Bool :=
  tagNameOf n == some name

/-- Split a character list at every space character, empty segments
kept. -/
def splitSpaces : List Char → List (List Char)
  | [] => [[]]
  | c :: rest =>
    if c = ' ' then [] :: splitSpaces rest
    else
      match splitSpaces rest with
      | w :: ws => (c :: w) :: ws
      | [] => [[c]]

/-- The class attribute split into words, as BeautifulSoup exposes the
multi-valued class attribute. -/
def classListOf (n : HNode) : List String :=
  match attrOf n "class" with
  | some v => (splitSpaces v.data).map String.mk
  | none => []

/-- Membership of one class word, as matching with a literal class value
does in BeautifulSoup. -/
def hasClassWord (n : HNode) (c : String) : Bool :=
  (classListOf n).contains c

/-- Does the node carry a class attribute at all (the class-is-True
filter)? -/
def hasClassAttr (n : HNode) : Bool :=
  (attrOf n "class").isSome

/-- First descendant satisfying the filter: BeautifulSoup find. -/
def findFirstN (p : HNode → Bool) (n : HNode) : Option HNode :=
  (nodeDesc n).find? p

/-- All descendants satisfying the filter: BeautifulSoup find_all. -/
def findAllN (p : HNode → Bool) (n : HNode) : List HNode :=
  (nodeDesc n).filter p

/-- Render an attribute list as markup. -/
def renderAttrs : List (String × String) → String
  | [] => ""
  | kv :: t => " " ++ kv.1 ++ "=" ++ "\"" ++ kv.2 ++ "\"" ++ renderAttrs t

mutual

/-- Serialisation of a node back to markup, as Python str applied to a
BeautifulSoup element produces (attribute values double-quoted). -/
def renderN : HNode → String
  | .text s => s
  | .elem name attrs cs =>
      "<" ++ name ++ renderAttrs attrs ++ ">" ++ renderList cs ++ "</" ++ name ++ ">"

/-- Render a sibling list. -/
def renderList : List HNode → String
  | [] => ""
  | c :: rest => renderN c ++ renderList rest

end

/-! ## The element filters used by the scraper -/

/-- A catalog row: a div of class row whose onclick attribute matches the
item-detail URL pattern. -/
def isCatalogRow (n : HNode) : Bool :=
  isElem "div" n && hasClassWord n "row" &&
    (match attrOf n "onclick" with
     | some v => (findAppcontrolId v).isSome
     | none => false)

/-- The total-count marker: a p element of class m-2. -/
def isPM2 (n : HNode) : Bool :=
  isElem "p" n && hasClassWord n "m-2"

/-- The name column: a div of class col-md-3 whose style attribute matches
the word-break marker. -/
def isNameCol (n : HNode) : Bool :=
  isElem "div" n && hasClassWord n "col-md-3" &&
    (match attrOf n "style" with
     | some v => containsSubStr v "word-break"
     | none => false)

/-- Any column of class col-md-3. -/
def isColMd3 (n : HNode) : Bool :=
  isElem "div" n && hasClassWord n "col-md-3"

/-- Any class-bearing div (the class-is-True find_all filter). -/
def isClassDiv (n : HNode) : Bool :=
  isElem "div" n && hasClassAttr n

/-- A detail section on an item detail page. -/
def isDetailItem (n : HNode) : Bool :=
  isElem "div" n && hasClassWord n "detail-item"

/-- A filled rating icon: an img whose alt text matches the fixed
black-background marker. -/
def isRatingImg (n : HNode) : Bool :=
  isElem "img" n &&
    (match attrOf n "alt" with
     | some v => containsSubStr v "black-background"
     | none => false)

/-! ## The trailing-parenthesis split of the raw application name

The source applies two anchored regular expressions to the raw name: a
search for an open parenthesis followed by one or more characters other
than a close parenthesis, a close parenthesis and the end of the string
(whose group becomes the category), and a substitution deleting that same
suffix together with any whitespace directly before it (producing the
name).  Both are anchored at the end, so a match exists exactly when the
string ends in a close parenthesis preceded by a nonempty run of
non-close-parenthesis characters preceded by an open parenthesis, and the
leftmost-match rule picks the leftmost such open parenthesis after the
last earlier close parenthesis. -/

/-- Scan a close-parenthesis-free zone for the leftmost open parenthesis
that still has at least one character after it; return the part before it
and the part after it. -/
def findParen : List Char → Option (List Char × List Char)
  | [] => none
  | c :: rest =>
    if c = '(' then
      if rest.isEmpty then none else some ([], rest)
    else
      match findParen rest with
      | some bx => some (c :: bx.1, bx.2)
      | none => none

/-- The combined effect of the category search and the suffix-deleting
substitution of the source on the raw name: returns the pair of the name
(suffix removed, trailing whitespace stripped) and the category (the
matched group), or the unchanged name and the empty category when the
search fails. -/
def splitNameCategory (raw : String) : String × String :=
  match raw.data.reverse with
  | c :: preRev =>
    if c = ')' then
      let zoneRev := preRev.takeWhile (fun ch => ch ≠ ')')
      let beforeRev := preRev.drop zoneRev.length
      match findParen zoneRev.reverse with
      | some bx => (String.mk (rstripChars (beforeRev.reverse ++ bx.1)), String.mk bx.2)
      | none => (raw, "")
    else (raw, "")
  | [] => (raw, "")

/-! ## The total-count marker regular expressions -/

/-- The literal head of both total-count patterns. -/
def totalPat : List Char := "Total:".data

/-- Attempt the markup-level total pattern directly after the literal
head: optional whitespace, a literal b tag, a nonempty run of digits and
commas (the group), a literal closing b tag. -/
def matchTotalHTMLAt (cs : List Char) : Option (List Char) :=
  let rest := cs.dropWhile Char.isWhitespace
  if "<b>".data.isPrefixOf rest then
    let rest2 := rest.drop 3
    let g := rest2.takeWhile (fun c => c.isDigit || c = ',')
    if g.isEmpty then none
    else if "</b>".data.isPrefixOf (rest2.drop g.length) then some g else none
  else none

/-- Leftmost search for the markup-level total pattern. -/
def searchTotalHTML : List Char → Option (List Char)
  | [] => none
  | c :: t =>
    if totalPat.isPrefixOf (c :: t) then
      match matchTotalHTMLAt ((c :: t).drop totalPat.length) with
      | some g => some g
      | none => searchTotalHTML t
    else searchTotalHTML t

/-- Attempt the plain-text total pattern directly after the literal head:
optional whitespace then a nonempty run of digits and commas (the
group). -/
def matchTotalTextAt (cs : List Char) : Option (List Char) :=
  let rest := cs.dropWhile Char.isWhitespace
  let g := rest.takeWhile (fun c => c.isDigit || c = ',')
  if g.isEmpty then none else some g

/-- Leftmost search for the plain-text total pattern. -/
def searchTotalText : List Char → Option (List Char)
  | [] => none
  | c :: t =>
    if totalPat.isPrefixOf (c :: t) then
      match matchTotalTextAt ((c :: t).drop totalPat.length) with
      | some g => some g
      | none => searchTotalText t
    else searchTotalText t

/-- Python int applied to the matched group with its commas removed: fails
on an empty digit string. -/
def parseTotalNat (g : List Char) : Option Nat :=
  let ds := g.filter (fun c => c ≠ ',')
  if ds.isEmpty then none else some (digitsToNatAux 0 ds)

/-! ## Configuration -/

/-- The scraping configuration record of the source.  Durations are
rationals standing for the float numbers of seconds. -/
structure Config where
  base_url : String
  user_agent : String
  request_timeout : ℚ
  retry_delay : ℚ
  max_retries : Nat
  output_file : String
  show_progress : Bool
  max_workers : Nat

/-- The module-level default configuration instance. -/
def _default_config : Config :=
  { base_url := "https://www.fortiguard.com/appcontrol"
    user_agent := "Mozilla/5.0 (Macintosh; Intel Mac OS X 10_15_7) AppleWebKit/537.36 (KHTML, like Gecko) Chrome/143.0.0.0 Safari/537.36"
    request_timeout := 10
    retry_delay := 2
    max_retries := 5
    output_file := "appid.csv"
    show_progress := true
    max_workers := 1 }

/-- The fixed request headers derived from the configuration. -/
def Config.headers (c : Config) : List (String × String) :=
  [("User-Agent", c.user_agent),
   ("Accept", "text/html,application/xhtml+xml,application/xml;q=0.9,image/avif,image/webp,image/apng,*/*;q=0.8,application/signed-exchange;v=b3;q=0.7")]

/-- The URL of catalog page n: the bare base URL for page 1, the filter
query string otherwise. -/
def pageUrl (config : Config) (page_num : Nat) : String :=
  if page_num == 1 then config.base_url
  else config.base_url ++ "?category=&popularity=&risk=&page=" ++ toString page_num

/-- The URL of the detail page of one application. -/
def detailUrl (config : Config) (app_id : Nat) : String :=
  config.base_url ++ "/" ++ toString app_id

/-- The network as an oracle: a URL and a zero-based attempt index give
the parsed document obtained by that attempt, or none when the transport
failed or every internal retry of the fetch was exhausted. -/
abbrev Net := String → Nat → Option HNode

/-! ## fetch_page -/

/-- The outcome of a single HTTP attempt inside fetch_page: a parsed
document, an SSL or connection error, or any other request error (an HTTP
error status or a timeout). -/
inductive FetchOutcome where
  | success (doc : HNode)
  | connError
  | otherError

/-- The observable behaviour of one fetch_page call: the returned
document, the ordered list of sleep durations performed, and the number
of attempts made. -/
structure FetchResult where
  doc : Option HNode
  sleeps : List ℚ
  attempts : Nat

/-- The retry loop of fetch_page.  Each iteration sleeps the fixed 1-unit
warm-up, consults the attempt outcome, and either returns the document,
sleeps the exponential delay (SSL or connection error), or sleeps the
flat delay (any other request error); the last attempt returns none
without a post-failure delay.  The fuel argument is the number of loop
iterations left. -/
def fetchPageAux (outcomes : Nat → FetchOutcome) (max_retries : Nat) (retry_delay : ℚ) :
    Nat → Nat → FetchResult
  | 0, _ => ⟨none, [], 0⟩
  | fuel + 1, attempt =>
    match outcomes attempt with
    | .success doc => ⟨some doc, [1], 1⟩
    | .connError =>
      let delay := retry_delay * 2 ^ attempt
      if attempt < max_retries - 1 then
        let r := fetchPageAux outcomes max_retries retry_delay fuel (attempt + 1)
        ⟨r.doc, 1 :: delay :: r.sleeps, r.attempts + 1⟩
      else ⟨none, [1], 1⟩
    | .otherError =>
      if attempt < max_retries - 1 then
        let r := fetchPageAux outcomes max_retries retry_delay fuel (attempt + 1)
        ⟨r.doc, 1 :: retry_delay :: r.sleeps, r.attempts + 1⟩
      else ⟨none, [1], 1⟩

/-- fetch_page: fetch a URL with retries.  The outcomes argument stands
for the transport; the optional max_retries argument and the optional
configuration default to the configuration value and the ambient default
configuration exactly as the keyword defaults of the source do. -/
def fetch_page (outcomes : Nat → FetchOutcome) (max_retriesOpt : Option Nat)
    (configOpt : Option Config) (ambient : Config) : FetchResult :=
  let config := configOpt.getD ambient
  let max_retries := max_retriesOpt.getD config.max_retries
  fetchPageAux outcomes max_retries config.retry_delay max_retries 0

/-! ## calculate_total_pages

The source computes math.ceil(total_appids / items_per_page) where the
division is Python float (IEEE-754 binary64) true division: the exact
quotient is rounded to 53 significant bits, to nearest, ties to even,
before the ceiling is taken. The model below performs this rounding in
exact integer arithmetic: it finds the binary exponent e of the quotient
(2 ^ e ≤ a / b < 2 ^ (e + 1)), scales numerator and denominator so the
rounded quotient becomes an integer division carrying exactly 53
significant bits, rounds that division to nearest with ties to even, and
takes the ceiling of the resulting dyadic value. Quotients in the normal
finite range of binary64 (always the case for page counts) are covered;
the model differs from the exact rational ceiling exactly where the float
does, e.g. at 2 ^ 53 + 1 items and one item per page. -/

/-- Fuel-bounded floor of the base-2 logarithm, by halving. -/
def log2Fuel : Nat → Nat → Nat
  | 0, _ => 0
  | fuel + 1, n => if 2 ≤ n then log2Fuel fuel (n / 2) + 1 else 0

/-- Floor of the base-2 logarithm of a positive natural. -/
def natLog2 (n : Nat) : Nat := log2Fuel n n

/-- Binary exponent of the quotient a / b for positive a and b: the unique
e with 2 ^ e ≤ a / b < 2 ^ (e + 1). The candidate natLog2 a - natLog2 b is
kept or decremented according to an exact integer comparison. -/
def binExp (a b : Nat) : Int :=
  if b * 2 ^ (((natLog2 a : Int) - natLog2 b).toNat) ≤
      a * 2 ^ (((natLog2 b : Int) - natLog2 a).toNat) then
    (natLog2 a : Int) - natLog2 b
  else (natLog2 a : Int) - natLog2 b - 1

/-- Integer division of N by D rounded to nearest, ties to even. -/
def nearestEvenDiv (N D : Nat) : Nat :=
  if 2 * (N % D) < D then N / D
  else if D < 2 * (N % D) then N / D + 1
  else if (N / D) % 2 == 0 then N / D else N / D + 1

/-- Ceiling of the binary64 quotient of a and b: the exact quotient is
rounded to 53 significant bits (nearest, ties to even) as Python float
true division computes it, then the ceiling of the rounded value is
taken. -/
def ceil_float_div (a b : Nat) : Nat :=
  if a = 0 then 0
  else
    let e := binExp a b
    let r := nearestEvenDiv (a * 2 ^ (52 - e).toNat) (b * 2 ^ (e - 52).toNat)
    if e ≤ 52 then (r + 2 ^ (52 - e).toNat - 1) / 2 ^ (52 - e).toNat
    else r * 2 ^ (e - 52).toNat

/-- calculate_total_pages: math.ceil of the binary64 float division, after
the explicit zero check that raises. -/
def calculate_total_pages (total_appids items_per_page : Nat) : Except String Nat :=
  if items_per_page == 0 then Except.error "Items per page cannot be zero"
  else Except.ok (ceil_float_div total_appids items_per_page)

/-! ## Row extraction -/

/-- extract_rating_count: the number of filled rating icons below the
given element; a missing element counts zero. -/
def extract_rating_count (elem : Option HNode) : Nat :=
  match elem with
  | none => 0
  | some e => (findAllN isRatingImg e).length

/-- extract_app_data: extract the id, name, description, category, risk
and popularity of one catalog row, or none when the navigation target or
the name column is missing. -/
def extract_app_data (app_element : HNode) :
    Option (Nat × String × String × String × Nat × Nat) :=
  match findAppcontrolId ((attrOf app_element "onclick").getD "") with
  | none => none
  | some app_id =>
    match findFirstN isNameCol app_element with
    | none => none
    | some name_col =>
      match findFirstN (isElem "b") name_col with
      | none => none
      | some name_bold =>
        let app_name_full := stripStr (getTextN name_bold)
        let nc := splitNameCategory app_name_full
        let cols := findAllN isColMd3 app_element
        let description :=
          match cols.get? 1 with
          | some desc_col =>
            match findFirstN (isElem "small") desc_col with
            | some desc_small => stripStr (getTextN desc_small)
            | none => ""
          | none => ""
        let all_cols := findAllN isClassDiv app_element
        let risk := extract_rating_count (all_cols.get? 2)
        let popularity := extract_rating_count (all_cols.get? 3)
        some (app_id, nc.1, description, nc.2, risk, popularity)

/-- The two leading per-row extraction steps of extract_app_data, named so
that theorems can hypothesise that a row passes them: the id parsed from
the navigation target. -/
def appIdOf (app_element : HNode) : Option Nat :=
  findAppcontrolId ((attrOf app_element "onclick").getD "")

/-- The raw (stripped, unsplit) name of a row: the text of the first bold
element of the name column, when both exist. -/
def rawNameOf (app_element : HNode) : Option String :=
  (findFirstN isNameCol app_element).bind
    (fun name_col => (findFirstN (isElem "b") name_col).map
      (fun name_bold => stripStr (getTextN name_bold)))

/-! ## Detail-page extraction -/

/-- The details dictionary: an association list of field names to
values, updated in place as Python dict assignment does. -/
def dictSet (d : List (String × String)) (k v : String) : List (String × String) :=
  if d.any (fun kv => kv.1 == k) then
    d.map (fun kv => if kv.1 == k then (k, v) else kv)
  else d ++ [(k, v)]

/-- Dictionary lookup with a default, as dict.get. -/
def dictGet (d : List (String × String)) (k dflt : String) : String :=
  match d.find? (fun kv => kv.1 == k) with
  | some kv => kv.2
  | none => dflt

/-- The initial details dictionary of get_app_details: the six detail
fields, each empty. -/
def initDetails : List (String × String) :=
  [("default_ports", ""), ("affected_products", ""), ("impact", ""),
   ("technology", ""), ("behavior", ""), ("references", "")]

/-- The comma-space join of Python. -/
def joinComma : List String → String
  | [] => ""
  | [s] => s
  | s :: rest => s ++ ", " ++ joinComma rest

/-- The stripped texts of the list items below a list element, empty ones
skipped, as the port, product and behavior loops of the source produce. -/
def liTexts (ul : HNode) : List String :=
  (findAllN (isElem "li") ul).filterMap (fun li =>
    let t := stripStr (getTextN li)
    if t = "" then none else some t)

/-- The reference entries of a list element: each list item contributes
its first link target when it has a link, else its own text; empty
entries are skipped. -/
def refTexts (ul : HNode) : List String :=
  (findAllN (isElem "li") ul).filterMap (fun li =>
    match findFirstN (isElem "a") li with
    | some a =>
      let t := stripStr ((attrOf a "href").getD "")
      if t = "" then none else some t
    | none =>
      let t := stripStr (getTextN li)
      if t = "" then none else some t)

/-- The heading text of one detail section, when the section has one. -/
def titleOf (item : HNode) : Option String :=
  (findFirstN (isElem "h3") item).map (fun h3 => stripStr (getTextN h3))

/-- Process one detail section: read its heading and dispatch on the
fixed substring vocabulary, the branches ordered as the source orders
them; a section without a heading, or with an unmatched heading, or
matched but without the content element its branch reads, leaves the
dictionary unchanged. -/
def processDetailItem (details : List (String × String)) (item : HNode) :
    List (String × String) :=
  match titleOf item with
  | none => details
  | some title =>
    if containsSubStr title "Default Ports" then
      match findFirstN (isElem "ul") item with
      | some ul => dictSet details "default_ports" (joinComma (liTexts ul))
      | none => details
    else if containsSubStr title "Affected Products" then
      match findFirstN (isElem "p") item with
      | some p => dictSet details "affected_products" (stripStr (getTextN p))
      | none =>
        match findFirstN (isElem "ul") item with
        | some ul => dictSet details "affected_products" (joinComma (liTexts ul))
        | none => details
    else if containsSubStr title "Impact" then
      match findFirstN (isElem "p") item with
      | some p => dictSet details "impact" (stripStr (getTextN p))
      | none => details
    else if containsSubStr title "Technology" then
      match findFirstN (isElem "p") item with
      | some p => dictSet details "technology" (stripStr (getTextN p))
      | none => details
    else if containsSubStr title "Behavior" then
      match findFirstN (isElem "ul") item with
      | some ul => dictSet details "behavior" (joinComma (liTexts ul))
      | none =>
        match findFirstN (isElem "p") item with
        | some p => dictSet details "behavior" (stripStr (getTextN p))
        | none => details
    else if containsSubStr title "References" then
      match findFirstN (isElem "ul") item with
      | some ul => dictSet details "references" (joinComma (refTexts ul))
      | none => details
    else details

/-- get_app_details: fetch the detail page of one application and fold
the vocabulary dispatch over its detail sections; a failed fetch returns
the all-empty dictionary unchanged. -/
def get_app_details (net : Net) (app_id : Nat) (configOpt : Option Config)
    (ambient : Config) : List (String × String) :=
  let config := configOpt.getD ambient
  let url := detailUrl config app_id
  match net url 0 with
  | none => initDetails
  | some soup => (findAllN isDetailItem soup).foldl processDetailItem initDetails

/-! ## scrape_page -/

/-- The observable behaviour of one scrape_page call: the extracted
records, the retry sleeps performed by its own loop, and the number of
iterations of that loop. -/
structure ScrapePageResult where
  records : List (Nat × String × String × String × Nat × Nat)
  sleeps : List ℚ
  attempts : Nat

/-- The retry loop of scrape_page: a failed fetch or a page with zero
extracted rows sleeps the flat delay and retries until the attempts are
exhausted, a page with rows is extracted row by row (rows that fail
extraction silently dropped) and returned at once. -/
def scrapePageAux (net : Net) (url : String) (max_retries : Nat) (retry_delay : ℚ) :
    Nat → Nat → ScrapePageResult
  | 0, _ => ⟨[], [], 0⟩
  | fuel + 1, attempt =>
    match net url attempt with
    | none =>
      if attempt < max_retries - 1 then
        let r := scrapePageAux net url max_retries retry_delay fuel (attempt + 1)
        ⟨r.records, retry_delay :: r.sleeps, r.attempts + 1⟩
      else ⟨[], [], 1⟩
    | some soup =>
      let app_elements := findAllN isCatalogRow soup
      if app_elements.length == 0 then
        if attempt < max_retries - 1 then
          let r := scrapePageAux net url max_retries retry_delay fuel (attempt + 1)
          ⟨r.records, retry_delay :: r.sleeps, r.attempts + 1⟩
        else ⟨[], [], 1⟩
      else ⟨app_elements.filterMap extract_app_data, [], 1⟩

/-- scrape_page: scrape one catalog page, retrying the whole fetch and
parse on a missing document or a zero row count. -/
def scrape_page (net : Net) (page_num : Nat) (expected_items : Nat)
    (configOpt : Option Config) (ambient : Config) : ScrapePageResult :=
  let config := configOpt.getD ambient
  let url := pageUrl config page_num
  scrapePageAux net url config.max_retries config.retry_delay config.max_retries 0

/-! ## Discovery -/

/-- get_total_appids_and_per_page: fetch page 1, read the total count
from the marker element (trying the markup-level pattern first and the
plain-text pattern second) and take the observed row count as the page
size; every structural failure is a raised error. -/
def get_total_appids_and_per_page (net : Net) (configOpt : Option Config)
    (ambient : Config) : Except String (Nat × Nat) :=
  let config := configOpt.getD ambient
  match net config.base_url 0 with
  | none => Except.error "Failed to fetch initial page"
  | some soup =>
    match findFirstN isPM2 soup with
    | none => Except.error "Could not find total count element"
    | some total_element =>
      let total_text := getTextN total_element
      let m :=
        match searchTotalHTML (renderN total_element).data with
        | some g => some g
        | none => searchTotalText total_text.data
      match m with
      | none => Except.error "Could not extract total count"
      | some g =>
        match parseTotalNat g with
        | none => Except.error "invalid literal for int"
        | some total_appids =>
          let app_rows := findAllN isCatalogRow soup
          if app_rows.length == 0 then
            Except.error "Could not find any application items on the page"
          else Except.ok (total_appids, app_rows.length)

/-! ## The two-phase pipeline -/

/-- One final output record: the six list-page fields merged with the six
detail fields. -/
structure OutRec where
  app_id : Nat
  app_name : String
  description : String
  category : String
  risk : Nat
  popularity : Nat
  default_ports : String
  affected_products : String
  impact : String
  technology : String
  behavior : String
  references : String
deriving DecidableEq

/-- The flattened partial records of all pages in page order, as step 2 of
scrape_all_pages assembles them before detail enrichment. -/
def allPartialRecords (net : Net) (total_pages items_per_page : Nat)
    (config : Config) : List (Nat × String × String × String × Nat × Nat) :=
  (List.range total_pages).flatMap
    (fun i => (scrape_page net (i + 1) items_per_page (some config) config).records)

/-- Merge one partial record with its details dictionary into a final
record, reading each detail key with an empty default as the source
does. -/
def mkOutRec (a : Nat × String × String × String × Nat × Nat)
    (details : List (String × String)) : OutRec :=
  { app_id := a.1
    app_name := a.2.1
    description := a.2.2.1
    category := a.2.2.2.1
    risk := a.2.2.2.2.1
    popularity := a.2.2.2.2.2
    default_ports := dictGet details "default_ports" ""
    affected_products := dictGet details "affected_products" ""
    impact := dictGet details "impact" ""
    technology := dictGet details "technology" ""
    behavior := dictGet details "behavior" ""
    references := dictGet details "references" "" }

/-- scrape_all_pages: scrape every page, flatten the partial records in
page order, and enrich each with its detail fields. -/
def scrape_all_pages (net : Net) (total_pages items_per_page : Nat)
    (configOpt : Option Config) (ambient : Config) : List OutRec :=
  let config := configOpt.getD ambient
  let all_apps := allPartialRecords net total_pages items_per_page config
  all_apps.map (fun a => mkOutRec a (get_app_details net a.1 (some config) ambient))

/-- scrape_all: discovery, page-count computation, then the two-phase
pipeline; only discovery failures propagate. -/
def scrape_all (net : Net) (configOpt : Option Config) (ambient : Config) :
    Except String (List OutRec) :=
  let config := configOpt.getD ambient
  match get_total_appids_and_per_page net (some config) ambient with
  | Except.error e => Except.error e
  | Except.ok tp =>
    match calculate_total_pages tp.1 tp.2 with
    | Except.error e => Except.error e
    | Except.ok total_pages =>
      Except.ok (scrape_all_pages net total_pages tp.2 (some config) ambient)

/-! ## Concrete fixtures used by witnesses and counterexamples -/

/-- A list item holding one text. -/
def liOf (t : String) : HNode := .elem "li" [] [.text t]

/-- The list of default ports of the detail-page fixture. -/
def ulDP : HNode := .elem "ul" [] [liOf "80", liOf "443", liOf "8080"]

/-- A detail section whose heading is Default Ports and whose list holds
the ports 80, 443 and 8080. -/
def itemDP : HNode :=
  .elem "div" [("class", "detail-item")] [.elem "h3" [] [.text "Default Ports"], ulDP]

/-- A detail page holding the single Default Ports section. -/
def docC7 : HNode := .elem "html" [] [itemDP]

/-- A small configuration with two retries and a flat delay of two. -/
def cfgW : Config :=
  { base_url := "b"
    user_agent := "ua"
    request_timeout := 10
    retry_delay := 2
    max_retries := 2
    output_file := "o.csv"
    show_progress := false
    max_workers := 1 }

/-- The same small configuration with three retries, for the fetch_page
witness. -/
def cfgW3 : Config :=
  { base_url := "b"
    user_agent := "ua"
    request_timeout := 10
    retry_delay := 2
    max_retries := 3
    output_file := "o.csv"
    show_progress := false
    max_workers := 1 }

/-- A minimal catalog row: navigation target, name column with a bold
name, nothing else. -/
def rowW1 : HNode :=
  .elem "div" [("class", "row"), ("onclick", "/appcontrol/1")] [
    .elem "div" [("class", "col-md-3"), ("style", "word-break")] [
      .elem "b" [] [.text "Name"]]]

/-- A catalog page holding the single minimal row. -/
def pageDoc1 : HNode := .elem "html" [] [rowW1]

/-- A network that serves page 1 of the small configuration and fails
every other URL, in particular every detail URL. -/
def netC1 : Net := fun url _ => if url = pageUrl cfgW 1 then some pageDoc1 else none

/-- A network that serves the same single-row page as page 1 and page 2,
so that the same application id is extracted twice. -/
def netC8 : Net := fun url _ =>
  if url = pageUrl cfgW 1 || url = pageUrl cfgW 2 then some pageDoc1 else none

/-- A network that always serves an empty document (zero catalog rows). -/
def netZ : Net := fun _ _ => some (.elem "html" [] [])

/-- A network that always serves the Default Ports detail page. -/
def netC7 : Net := fun _ _ => some docC7

/-- A filled rating icon. -/
def imgFilled : HNode := .elem "img" [("alt", "black-background-star-icon")] []

/-- An unfilled rating icon. -/
def imgUnfilled : HNode := .elem "img" [("alt", "white-background-star-icon")] []

/-- A rating column holding three filled and two unfilled icons. -/
def col32 : HNode :=
  .elem "div" [("class", "col-md-2")] [imgFilled, imgFilled, imgFilled, imgUnfilled, imgUnfilled]

/-- A rating column holding six filled icons. -/
def col6 : HNode :=
  .elem "div" [("class", "col-md-2")] [imgFilled, imgFilled, imgFilled, imgFilled, imgFilled, imgFilled]

/-- An inner class-bearing div holding two filled icons, nested inside the
risk column of the nested fixture row. -/
def divInner : HNode := .elem "div" [("class", "x")] [imgFilled, imgFilled]

/-- The risk column of the nested fixture row: a class-bearing div whose
icons sit inside a further class-bearing div. -/
def divRisk : HNode := .elem "div" [("class", "col-md-2")] [divInner]

/-- The popularity column of the nested fixture row: five filled icons. -/
def divPop : HNode :=
  .elem "div" [("class", "col-md-2")] [imgFilled, imgFilled, imgFilled, imgFilled, imgFilled]

/-- A catalog row whose third class-bearing descendant div differs from
its fourth class-bearing child div, because the risk column nests a
class-bearing div. -/
def rowC6 : HNode :=
  .elem "div" [("class", "row"), ("onclick", "/appcontrol/1")] [
    .elem "div" [("class", "col-md-3"), ("style", "word-break")] [.elem "b" [] [.text "Name"]],
    .elem "div" [("class", "col-md-3")] [],
    divRisk, divPop]

/-- A catalog row whose raw name is A, open parenthesis, B, space,
parenthesized C: it ends with the parenthesized suffix C, yet the leftmost
match of the anchored search starts at the earlier unclosed open
parenthesis. -/
def rowC5 : HNode :=
  .elem "div" [("class", "row"), ("onclick", "/appcontrol/77")] [
    .elem "div" [("class", "col-md-3"), ("style", "word-break")] [
      .elem "b" [] [.text "A(B (C)"]]]

/-- The catalog row of the specification example: bolded name DNF with
the parenthesized category Update. -/
def rowDNF : HNode :=
  .elem "div" [("class", "row"), ("onclick", "/appcontrol/59958")] [
    .elem "div" [("class", "col-md-3"), ("style", "word-break")] [
      .elem "b" [] [.text "DNF (Update)"]]]

/-- The document served on a successful fetch attempt of the fetch_page
witness. -/
def wDoc : HNode := .text "d"

/-- Attempt outcomes whose first attempt hits a connection error and whose
second succeeds. -/
def wOutcomes : Nat → FetchOutcome :=
  fun i => if i == 1 then .success wDoc else .connError

/-! ## Trace descriptions for the fetch_page retry policy -/

/-- The delay the source computes after a failed attempt: the exponential
backoff for an SSL or connection error, the flat delay otherwise. -/
def failDelay (outcomes : Nat → FetchOutcome) (retry_delay : ℚ) (i : Nat) : ℚ :=
  match outcomes i with
  | .connError => retry_delay * 2 ^ i
  | _ => retry_delay

/-- The sleep trace of a run whose attempts a, a+1, ..., a+k-1 fail and
whose attempt a+k succeeds: a warm-up of one unit before every attempt and
the classified delay after each failed one. -/
def succTrace (outcomes : Nat → FetchOutcome) (retry_delay : ℚ) : Nat → Nat → List ℚ
  | _, 0 => [1]
  | a, k + 1 => 1 :: failDelay outcomes retry_delay a :: succTrace outcomes retry_delay (a + 1) k

/-- The sleep trace of a run of k attempts starting at attempt a that all
fail: a warm-up before every attempt, the classified delay after each
failed attempt except the last. -/
def failTrace (outcomes : Nat → FetchOutcome) (retry_delay : ℚ) : Nat → Nat → List ℚ
  | _, 0 => []
  | _, 1 => [1]
  | a, k + 2 => 1 :: failDelay outcomes retry_delay a :: failTrace outcomes retry_delay (a + 1) (k + 1)

/-! ## Helper lemmas -/

/-- Ceiling of an exact rational division of naturals equals the rounded-up
integer division. -/
theorem ceil_div_eq_nat_div (t p : ℕ) (hp : 1 ≤ p) :
    ⌈(t : ℚ) / (p : ℚ)⌉ = (((t + p - 1) / p : ℕ) : ℤ) := by
  have hp0 : 0 < p := hp
  set q := (t + p - 1) / p with hq
  obtain ⟨A, hA⟩ : ∃ A, A = q * p := ⟨_, rfl⟩
  have h1 : A ≤ t + (p - 1) := by
    have := Nat.div_mul_le_self (t + p - 1) p
    rw [← hq, ← hA] at this
    omega
  have h2 : t + (p - 1) < A + p := by
    have hlt : t + p - 1 < (t + p - 1) / p * p + p := Nat.lt_div_mul_add hp0
    rw [← hq, ← hA] at hlt
    omega
  have hA1 : t ≤ A := by omega
  have hA2 : A < t + p := by omega
  have hp' : (0 : ℚ) < (p : ℚ) := by exact_mod_cast hp0
  rw [Int.ceil_eq_iff]
  constructor
  · rw [lt_div_iff₀ hp']
    have hcast : ((q : ℤ) : ℚ) = (q : ℚ) := by push_cast; ring
    rw [hcast]
    have he : ((q : ℚ) - 1) * (p : ℚ) = (q : ℚ) * (p : ℚ) - (p : ℚ) := by ring
    rw [he, sub_lt_iff_lt_add]
    have : (A : ℚ) < (t : ℚ) + (p : ℚ) := by exact_mod_cast hA2
    rw [hA] at this
    push_cast at this ⊢
    linarith
  · rw [div_le_iff₀ hp']
    have : (t : ℚ) ≤ (A : ℚ) := by exact_mod_cast hA1
    rw [hA] at this
    push_cast at this ⊢
    linarith

/-- With fuel at least n, log2Fuel brackets n between consecutive powers of two. -/
theorem log2Fuel_correct : ∀ fuel n, n ≤ fuel → 1 ≤ n →
    2 ^ log2Fuel fuel n ≤ n ∧ n < 2 ^ (log2Fuel fuel n + 1) := by
  intro fuel
  induction fuel with
  | zero => intro n h1 h2; omega
  | succ m ih =>
    intro n h1 h2
    rw [log2Fuel]
    by_cases h : 2 ≤ n
    · rw [if_pos h]
      obtain ⟨hA1, hA2⟩ := ih (n / 2) (by omega) (by omega)
      rw [pow_succ] at hA2
      constructor
      · rw [pow_succ]
        generalize 2 ^ log2Fuel m (n / 2) = A at hA1 hA2
        omega
      · rw [pow_succ, pow_succ]
        generalize 2 ^ log2Fuel m (n / 2) = A at hA1 hA2
        omega
    · rw [if_neg h]
      norm_num
      omega

/-- natLog2 is the floor of the base-2 logarithm of a positive natural. -/
theorem natLog2_correct (n : Nat) (h : 1 ≤ n) :
    2 ^ natLog2 n ≤ n ∧ n < 2 ^ (natLog2 n + 1) :=
  log2Fuel_correct n n (Nat.le_refl n) h

/-- The integer shift comparison decides the rational inequality 2 ^ k * y ≤ x. -/
theorem pow_shift_le_iff (x y : Nat) (k : Int) (hy : 1 ≤ y) :
    (y * 2 ^ k.toNat ≤ x * 2 ^ (-k).toNat) ↔ (2 : ℚ) ^ k * y ≤ x := by
  have hyQ : (0 : ℚ) < y := by exact_mod_cast hy
  rcases le_or_lt 0 k with hk | hk
  · have h1 : (-k).toNat = 0 := by omega
    have h2 : (2 : ℚ) ^ k = (2 : ℚ) ^ k.toNat := by
      rw [← zpow_natCast]
      congr 1
      omega
    rw [h1, pow_zero, mul_one, h2]
    constructor
    · intro h
      have hc : ((y * 2 ^ k.toNat : ℕ) : ℚ) ≤ (x : ℚ) := by exact_mod_cast h
      push_cast at hc
      linarith
    · intro h
      have hc : ((y * 2 ^ k.toNat : ℕ) : ℚ) ≤ (x : ℚ) := by
        push_cast
        linarith
      exact_mod_cast hc
  · have h1 : k.toNat = 0 := by omega
    have h2 : (2 : ℚ) ^ (-k) = (2 : ℚ) ^ (-k).toNat := by
      rw [← zpow_natCast]
      congr 1
      omega
    have hpow : (0 : ℚ) < (2 : ℚ) ^ ((-k).toNat : ℕ) := by positivity
    have hkey : (2 : ℚ) ^ k * (2 : ℚ) ^ ((-k).toNat : ℕ) = 1 := by
      rw [← h2, ← zpow_add₀ (two_ne_zero)]
      simp
    rw [h1, pow_zero, mul_one]
    constructor
    · intro h
      have hc : (y : ℚ) ≤ (x : ℚ) * (2 : ℚ) ^ ((-k).toNat : ℕ) := by
        have hc0 : ((y : ℕ) : ℚ) ≤ ((x * 2 ^ (-k).toNat : ℕ) : ℚ) := by exact_mod_cast h
        push_cast at hc0
        linarith
      have := mul_le_mul_of_nonneg_left hc (le_of_lt (by positivity : (0:ℚ) < (2:ℚ) ^ k))
      calc (2 : ℚ) ^ k * y ≤ (2 : ℚ) ^ k * ((x : ℚ) * (2 : ℚ) ^ ((-k).toNat : ℕ)) := this
        _ = (x : ℚ) * ((2 : ℚ) ^ k * (2 : ℚ) ^ ((-k).toNat : ℕ)) := by ring
        _ = x := by rw [hkey, mul_one]
    · intro h
      have hc : (y : ℚ) ≤ (x : ℚ) * (2 : ℚ) ^ ((-k).toNat : ℕ) := by
        have := mul_le_mul_of_nonneg_right h (le_of_lt hpow)
        calc (y : ℚ) = (2 : ℚ) ^ k * y * (2 : ℚ) ^ ((-k).toNat : ℕ) := by
              rw [mul_assoc, mul_comm (y : ℚ), ← mul_assoc, hkey, one_mul]
          _ ≤ (x : ℚ) * (2 : ℚ) ^ ((-k).toNat : ℕ) := this
      have hc2 : ((y : ℕ) : ℚ) ≤ ((x * 2 ^ (-k).toNat : ℕ) : ℚ) := by
        push_cast
        linarith
      exact_mod_cast hc2

/-- binExp a b brackets the exact quotient a / b between consecutive powers of two. -/
theorem binExp_correct (a b : Nat) (ha : 1 ≤ a) (hb : 1 ≤ b) :
    (2 : ℚ) ^ binExp a b ≤ (a : ℚ) / b ∧
      (a : ℚ) / b < (2 : ℚ) ^ (binExp a b + 1) := by
  have hbQ : (0 : ℚ) < b := by exact_mod_cast hb
  obtain ⟨hL1, hL2⟩ := natLog2_correct a ha
  obtain ⟨hM1, hM2⟩ := natLog2_correct b hb
  set L := natLog2 a with hLdef
  set M := natLog2 b with hMdef
  have hL1Q : (2 : ℚ) ^ (L : ℕ) ≤ a := by exact_mod_cast hL1
  have hL2Q : (a : ℚ) < 2 ^ (L + 1 : ℕ) := by exact_mod_cast hL2
  have hM1Q : (2 : ℚ) ^ (M : ℕ) ≤ b := by exact_mod_cast hM1
  have hM2Q : (b : ℚ) < 2 ^ (M + 1 : ℕ) := by exact_mod_cast hM2
  rw [binExp]
  by_cases htest : b * 2 ^ (((L : ℤ) - M).toNat) ≤ a * 2 ^ (((M : ℤ) - L).toNat)
  · rw [if_pos htest]
    constructor
    · rw [le_div_iff₀ hbQ]
      have htest2 : b * 2 ^ (((L : ℤ) - M).toNat) ≤ a * 2 ^ ((-((L : ℤ) - M)).toNat) := by
        rw [neg_sub]
        exact htest
      exact (pow_shift_le_iff a b ((L : ℤ) - M) hb).mp htest2
    · rw [div_lt_iff₀ hbQ]
      have hpos : (0 : ℚ) < (2 : ℚ) ^ ((L : ℤ) - M + 1) := by positivity
      calc (a : ℚ) < 2 ^ (L + 1 : ℕ) := hL2Q
        _ = (2 : ℚ) ^ ((L : ℤ) - M + 1) * 2 ^ (M : ℕ) := by
            rw [← zpow_natCast (2 : ℚ) (L + 1), ← zpow_natCast (2 : ℚ) M,
              ← zpow_add₀ (two_ne_zero)]
            congr 1
            push_cast
            ring
        _ ≤ (2 : ℚ) ^ ((L : ℤ) - M + 1) * b :=
            mul_le_mul_of_nonneg_left hM1Q (le_of_lt hpos)
  · rw [if_neg htest]
    constructor
    · rw [le_div_iff₀ hbQ]
      have hpos : (0 : ℚ) < (2 : ℚ) ^ ((L : ℤ) - M - 1) := by positivity
      have hc : (2 : ℚ) ^ ((L : ℤ) - M - 1) * b < 2 ^ (L : ℕ) := by
        calc (2 : ℚ) ^ ((L : ℤ) - M - 1) * b
            < (2 : ℚ) ^ ((L : ℤ) - M - 1) * 2 ^ (M + 1 : ℕ) :=
              mul_lt_mul_of_pos_left hM2Q hpos
          _ = 2 ^ (L : ℕ) := by
              rw [← zpow_natCast (2 : ℚ) (M + 1), ← zpow_add₀ (two_ne_zero),
                ← zpow_natCast (2 : ℚ) L]
              congr 1
              push_cast
              ring
      exact le_of_lt (lt_of_lt_of_le hc hL1Q)
    · rw [div_lt_iff₀ hbQ]
      have hnot : ¬ (2 : ℚ) ^ ((L : ℤ) - M) * b ≤ a := by
        intro hcon
        apply htest
        have h3 := (pow_shift_le_iff a b ((L : ℤ) - M) hb).mpr hcon
        rw [neg_sub] at h3
        exact h3
      push_neg at hnot
      have he : (L : ℤ) - M - 1 + 1 = (L : ℤ) - M := by ring
      rw [he]
      linarith

/-- The rounded quotient is below the exact quotient by at most half an ulp. -/
theorem nearestEvenDiv_half (N D : Nat) (hD : 1 ≤ D) :
    2 * N ≤ 2 * D * nearestEvenDiv N D + D := by
  have hdm : D * (N / D) + N % D = N := Nat.div_add_mod N D
  have hmod : N % D < D := Nat.mod_lt _ hD
  have hsplit : 2 * N = 2 * D * (N / D) + 2 * (N % D) := by
    conv_lhs => rw [← hdm]
    ring
  have hstep : 2 * D * (N / D + 1) + D = 2 * D * (N / D) + (2 * D + D) := by ring
  rw [nearestEvenDiv]
  by_cases h1 : 2 * (N % D) < D
  · rw [if_pos h1, hsplit]
    exact Nat.add_le_add_left (le_of_lt h1) _
  · rw [if_neg h1]
    have hr2 : 2 * (N % D) ≤ 2 * D + D := by omega
    by_cases h2 : D < 2 * (N % D)
    · rw [if_pos h2, hsplit, hstep]
      exact Nat.add_le_add_left hr2 _
    · rw [if_neg h2]
      have heq : 2 * (N % D) = D := by omega
      by_cases h3 : ((N / D) % 2 == 0) = true
      · rw [if_pos h3, hsplit, heq]
      · rw [if_neg h3, hsplit, hstep]
        exact Nat.add_le_add_left hr2 _

/-- The rounded quotient never exceeds an integer bound on the exact quotient. -/
theorem nearestEvenDiv_le (N D : Nat) (hD : 1 ≤ D) (c : Nat) (hc : N ≤ D * c) :
    nearestEvenDiv N D ≤ c := by
  have hdm : D * (N / D) + N % D = N := Nat.div_add_mod N D
  have hmod : N % D < D := Nat.mod_lt _ hD
  have hqc : N / D ≤ c := by
    have := Nat.div_le_div_right (c := D) hc
    rwa [Nat.mul_div_cancel_left c hD] at this
  have hq1c : 1 ≤ N % D → N / D + 1 ≤ c := by
    intro hr
    have h6 : D * (N / D) + 1 ≤ N := by
      calc D * (N / D) + 1 ≤ D * (N / D) + N % D := Nat.add_le_add_left hr _
        _ = N := hdm
    have h5 : D * (N / D) < D * c := lt_of_lt_of_le (Nat.lt_of_succ_le h6) hc
    exact Nat.lt_of_mul_lt_mul_left h5
  rw [nearestEvenDiv]
  by_cases h1 : 2 * (N % D) < D
  · rw [if_pos h1]
    exact hqc
  · rw [if_neg h1]
    have hr1 : 1 ≤ N % D := by omega
    by_cases h2 : D < 2 * (N % D)
    · rw [if_pos h2]
      exact hq1c hr1
    · rw [if_neg h2]
      by_cases h3 : ((N / D) % 2 == 0) = true
      · rw [if_pos h3]
        exact hqc
      · rw [if_neg h3]
        exact hq1c hr1

/-- On an exact division the rounding is the exact quotient. -/
theorem nearestEvenDiv_exact (N D : Nat) (hD : 1 ≤ D) (hdvd : D ∣ N) :
    nearestEvenDiv N D = N / D := by
  have hr : N % D = 0 := Nat.mod_eq_zero_of_dvd hdvd
  rw [nearestEvenDiv, hr]
  rw [if_pos (by omega)]

/-- Characterisation of natural division by bracketing between multiples. -/
theorem div_eq_of_between (m k n : Nat) (hk : 1 ≤ k) (h1 : n * k ≤ m)
    (h2 : m < (n + 1) * k) : m / k = n := by
  have ha : n ≤ m / k := (Nat.le_div_iff_mul_le hk).mpr h1
  have hb2 : m / k < n + 1 := by
    rw [Nat.div_lt_iff_lt_mul hk]
    exact h2
  omega

/-- Rounding n * S up to a multiple of S gives back n. -/
theorem mul_add_pred_div (n S : Nat) (hS : 1 ≤ S) : (n * S + S - 1) / S = n := by
  apply div_eq_of_between _ _ _ hS
  · rw [Nat.add_sub_assoc hS]
    exact Nat.le_add_right _ _
  · rw [Nat.add_sub_assoc hS]
    have h1 : (n + 1) * S = n * S + S := by ring
    rw [h1]
    exact Nat.add_lt_add_left (by omega) _

/-- For numerator and denominator up to 2 ^ 53 the binary64 quotient rounds to a
value whose ceiling is the exact rational ceiling, the rounded-up integer
division. -/
theorem ceil_float_div_exact (a b : Nat) (hb : 1 ≤ b) (ha : a ≤ 2 ^ 53)
    (hbu : b ≤ 2 ^ 53) : ceil_float_div a b = (a + b - 1) / b := by
  rcases Nat.eq_zero_or_pos a with ha0 | hapos
  · subst ha0
    rw [ceil_float_div, if_pos rfl, Nat.zero_add, Nat.div_eq_of_lt (by omega)]
  · have ha1 : 1 ≤ a := hapos
    simp only [ceil_float_div]
    rw [if_neg (by omega : ¬ a = 0)]
    obtain ⟨hQ1, hQ2⟩ := binExp_correct a b ha1 hb
    set e := binExp a b with hedef
    have hbQ : (0 : ℚ) < b := by exact_mod_cast hb
    have haQ : (0 : ℚ) < a := by exact_mod_cast ha1
    by_cases he52 : e ≤ 52
    · rw [if_pos he52]
      have hz : (e - 52).toNat = 0 := by omega
      rw [hz, pow_zero, mul_one]
      set s := (52 - e).toNat with hsdef
      have hI1 : b * 2 ^ 52 ≤ a * 2 ^ s := by
        have h1 : (2 : ℚ) ^ e * b ≤ a := (le_div_iff₀ hbQ).mp hQ1
        have h2 : (2 : ℚ) ^ e * b * (2 : ℚ) ^ (s : ℤ) ≤ (a : ℚ) * (2 : ℚ) ^ (s : ℤ) :=
          mul_le_mul_of_nonneg_right h1 (by positivity)
        have hes : (52 : ℤ) = e + (s : ℤ) := by omega
        have h3 : (b : ℚ) * (2 : ℚ) ^ (52 : ℤ) ≤ (a : ℚ) * (2 : ℚ) ^ (s : ℤ) := by
          calc (b : ℚ) * (2 : ℚ) ^ (52 : ℤ)
              = (2 : ℚ) ^ e * b * (2 : ℚ) ^ (s : ℤ) := by
                rw [mul_comm ((2 : ℚ) ^ e) (b : ℚ), mul_assoc, ← zpow_add₀ (two_ne_zero), ← hes]
            _ ≤ _ := h2
        have h4 : ((b * 2 ^ 52 : ℕ) : ℚ) ≤ ((a * 2 ^ s : ℕ) : ℚ) := by
          push_cast
          have hlit : (4503599627370496 : ℚ) = (2 : ℚ) ^ (52 : ℤ) := by norm_num
          rw [hlit, ← zpow_natCast (2 : ℚ) s]
          exact h3
        exact_mod_cast h4
      rcases Nat.eq_zero_or_pos (a % b) with hrem0 | hrempos
      · have hdvd : b ∣ a := Nat.dvd_of_mod_eq_zero hrem0
        have hN : a * 2 ^ s = b * (a / b * 2 ^ s) := by
          conv_lhs => rw [← Nat.div_mul_cancel hdvd]
          ring
        have hr : nearestEvenDiv (a * 2 ^ s) b = a / b * 2 ^ s := by
          rw [nearestEvenDiv_exact _ _ hb ⟨_, hN⟩, hN, Nat.mul_div_cancel_left _ hb]
        rw [hr, mul_add_pred_div _ _ (Nat.one_le_two_pow)]
        conv_rhs => rw [← Nat.div_mul_cancel hdvd]
        rw [mul_add_pred_div _ _ hb]
      · set n := a / b with hndef
        have hmodlt : a % b < b := Nat.mod_lt _ hb
        have hdm : b * n + a % b = a := Nat.div_add_mod a b
        have hS : 1 ≤ 2 ^ s := Nat.one_le_two_pow
        have hb2 : b ≤ 2 ^ (s + 1) := by
          have h1 : a * 2 ^ s ≤ 2 ^ 53 * 2 ^ s := Nat.mul_le_mul_right _ ha
          have h2 : b * 2 ^ 52 ≤ 2 ^ (s + 1) * 2 ^ 52 := by
            calc b * 2 ^ 52 ≤ a * 2 ^ s := hI1
              _ ≤ 2 ^ 53 * 2 ^ s := h1
              _ = 2 ^ (s + 1) * 2 ^ 52 := by
                  rw [← pow_add, ← pow_add]
                  congr 1
                  omega
          exact Nat.le_of_mul_le_mul_right h2 (by positivity)
        have hF2 : b < a % b * 2 ^ (s + 1) := by
          rcases lt_or_eq_of_le hb2 with hlt | hbe
          · calc b < 2 ^ (s + 1) := hlt
              _ ≤ a % b * 2 ^ (s + 1) := Nat.le_mul_of_pos_left _ hrempos
          · exfalso
            have ha53 : 2 ^ 53 ≤ a := by
              have h3 : 2 ^ 53 * 2 ^ s ≤ a * 2 ^ s := by
                calc 2 ^ 53 * 2 ^ s = 2 ^ (s + 1) * 2 ^ 52 := by
                      rw [← pow_add, ← pow_add]
                      congr 1
                      omega
                  _ = b * 2 ^ 52 := by rw [hbe]
                  _ ≤ a * 2 ^ s := hI1
              exact Nat.le_of_mul_le_mul_right h3 (by positivity)
            have ha2 : a = 2 ^ 53 := le_antisymm ha ha53
            have hs53 : s + 1 ≤ 53 := by
              have hpow : (2 : ℕ) ^ (s + 1) ≤ 2 ^ 53 := hbe ▸ hbu
              exact (Nat.pow_le_pow_iff_right (by omega)).mp hpow
            have hz2 : a % b = 0 := by
              rw [ha2, hbe]
              exact Nat.mod_eq_zero_of_dvd (pow_dvd_pow 2 hs53)
            omega
        set r := nearestEvenDiv (a * 2 ^ s) b with hrdef
        have hub : r ≤ (n + 1) * 2 ^ s := by
          apply nearestEvenDiv_le _ _ hb
          calc a * 2 ^ s = (b * n + a % b) * 2 ^ s := by rw [hdm]
            _ ≤ (b * n + b) * 2 ^ s := Nat.mul_le_mul_right _ (by omega)
            _ = b * ((n + 1) * 2 ^ s) := by ring
        have hlb : n * 2 ^ s < r := by
          have hhalf := nearestEvenDiv_half (a * 2 ^ s) b hb
          have hexp : 2 * (a * 2 ^ s) = 2 * b * (n * 2 ^ s) + a % b * 2 ^ (s + 1) := by
            conv_lhs => rw [← hdm]
            rw [pow_succ]
            ring
          have h1 : 2 * b * (n * 2 ^ s) + a % b * 2 ^ (s + 1) ≤ 2 * b * r + b := by
            rw [← hexp]
            exact hhalf
          have h2 : 2 * b * (n * 2 ^ s) < 2 * b * r := by
            have h3 := lt_of_le_of_lt h1 (Nat.add_lt_add_left hF2 _)
            generalize 2 * b * (n * 2 ^ s) = P at h3 ⊢
            generalize 2 * b * r = Q at h3 ⊢
            generalize a % b * 2 ^ (s + 1) = T at h3
            omega
          have h3 : 2 * b * (n * 2 ^ s) = (2 * b) * (n * 2 ^ s) := by ring
          have h4 : 2 * b * r = (2 * b) * r := by ring
          rw [h3, h4] at h2
          exact Nat.lt_of_mul_lt_mul_left h2
        have hsucc : (n + 1) * 2 ^ s = n * 2 ^ s + 2 ^ s := by ring
        have hL : (r + 2 ^ s - 1) / 2 ^ s = n + 1 := by
          apply div_eq_of_between _ _ _ hS
          · rw [hsucc]
            generalize n * 2 ^ s = P at hlb
            generalize 2 ^ s = S at hS ⊢
            omega
          · have hexp2 : (n + 1 + 1) * 2 ^ s = n * 2 ^ s + (2 ^ s + 2 ^ s) := by ring
            rw [hexp2]
            rw [hsucc] at hub
            generalize n * 2 ^ s = P at hlb hub ⊢
            generalize 2 ^ s = S at hS hub ⊢
            omega
        have hR : (a + b - 1) / b = n + 1 := by
          apply div_eq_of_between _ _ _ hb
          · have h1 : (n + 1) * b = b * n + b := by ring
            rw [h1]
            generalize b * n = Q at hdm ⊢
            omega
          · have h1 : (n + 1 + 1) * b = b * n + (b + b) := by ring
            rw [h1]
            generalize b * n = Q at hdm ⊢
            omega
        rw [hL, hR]
    · have he53 : 53 ≤ e := by omega
      have h2e : (2 : ℚ) ^ (53 : ℤ) ≤ (2 : ℚ) ^ e :=
        zpow_le_zpow_right₀ (by norm_num) he53
      have hq_le_a : (a : ℚ) / b ≤ a :=
        div_le_self (le_of_lt haQ) (by exact_mod_cast hb)
      have hcast53 : (2 : ℚ) ^ (53 : ℤ) = ((2 ^ 53 : ℕ) : ℚ) := by
        norm_num
      have ha53 : a = 2 ^ 53 := by
        apply le_antisymm ha
        have h1 : (2 : ℚ) ^ (53 : ℤ) ≤ (a : ℚ) := le_trans h2e (le_trans hQ1 hq_le_a)
        rw [hcast53] at h1
        exact_mod_cast h1
      have hb1 : b = 1 := by
        have h1 : (2 : ℚ) ^ (53 : ℤ) * b ≤ a := (le_div_iff₀ hbQ).mp (le_trans h2e hQ1)
        rw [hcast53] at h1
        have h2 : ((2 ^ 53 * b : ℕ) : ℚ) ≤ ((2 ^ 53 : ℕ) : ℚ) := by
          push_cast
          rw [ha53] at h1
          push_cast at h1
          linarith
        have h3 : 2 ^ 53 * b ≤ 2 ^ 53 := by exact_mod_cast h2
        omega
      subst ha53
      subst hb1
      have he' : e = 53 := by
        rw [hedef]
        decide
      rw [he']
      decide

/-! ## Claim theorems -/

/-- C4 counterexample: at 2 ^ 53 + 1 total items and one item per page the
binary64 quotient rounds down to 2 ^ 53 (53 significant bits, ties to
even), so the code returns 2 ^ 53 pages while the exact ceiling of the
division is 2 ^ 53 + 1: the claimed identity with the exact ceiling fails
here. -/
theorem calculate_total_pages_float_counterexample :
    calculate_total_pages (2 ^ 53 + 1) 1 = Except.ok (2 ^ 53) ∧
    Int.toNat ⌈((2 ^ 53 + 1 : ℕ) : ℚ) / ((1 : ℕ) : ℚ)⌉ = 2 ^ 53 + 1 ∧
    (2 ^ 53 : ℕ) ≠ 2 ^ 53 + 1 := by
  refine ⟨?_, ?_, by omega⟩
  · have h : calculate_total_pages (2 ^ 53 + 1) 1 =
        Except.ok (ceil_float_div (2 ^ 53 + 1) 1) := rfl
    rw [h]
    exact congrArg Except.ok (by decide)
  · rw [ceil_div_eq_nat_div (2 ^ 53 + 1) 1 (by norm_num), Int.toNat_natCast]
    decide

/-- C4 (amended): for every totalItems up to 2 ^ 53 and every itemsPerPage
between 1 and 2 ^ 53, calculate_total_pages returns the ceiling of the
exact division (the binary64 rounding of the quotient does not move the
ceiling in this range, which covers every realistic catalog size); in
particular 2500 items at 25 per page give 100 pages; and a page size of
zero raises instead of returning a value. Beyond 2 ^ 53 the float rounding
can change the result. -/
theorem calculate_total_pages_correct :
    (∀ total per : Nat, 1 ≤ per → total ≤ 2 ^ 53 → per ≤ 2 ^ 53 →
      calculate_total_pages total per =
        Except.ok (Int.toNat ⌈(total : ℚ) / (per : ℚ)⌉)) ∧
    calculate_total_pages 2500 25 = Except.ok 100 ∧
    (∀ total : Nat,
      calculate_total_pages total 0 = Except.error "Items per page cannot be zero") := by
  refine ⟨?_, ?_, fun total => rfl⟩
  · intro total per hp h1 h2
    have hne : (per == 0) = false := by
      simp only [beq_eq_false_iff_ne]
      omega
    rw [calculate_total_pages, hne]
    simp only [Bool.false_eq_true, if_false]
    rw [ceil_float_div_exact total per hp h1 h2,
      ceil_div_eq_nat_div total per hp, Int.toNat_natCast]
  · have h : calculate_total_pages 2500 25 =
        Except.ok (ceil_float_div 2500 25) := rfl
    rw [h]
    exact congrArg Except.ok (by decide)

/-- C4 witness: calculate_total_pages applied at 7 items and 3 per page,
through the general theorem. -/
theorem calculate_total_pages_correct_witness :
    calculate_total_pages 7 3 = Except.ok (Int.toNat ⌈((7 : ℕ) : ℚ) / ((3 : ℕ) : ℚ)⌉) :=
  calculate_total_pages_correct.1 7 3 (by decide) (by decide) (by decide)

/-- C9: every public operation is determined by a caller-supplied
configuration alone: with an explicit configuration passed, the ambient
module-level default configuration never influences the result. -/
theorem no_ambient_config_dependence :
    (∀ (o : Nat → FetchOutcome) (mOpt : Option Nat) (cfg a1 a2 : Config),
      fetch_page o mOpt (some cfg) a1 = fetch_page o mOpt (some cfg) a2) ∧
    (∀ (net : Net) (cfg a1 a2 : Config),
      get_total_appids_and_per_page net (some cfg) a1 =
        get_total_appids_and_per_page net (some cfg) a2) ∧
    (∀ (net : Net) (pn ei : Nat) (cfg a1 a2 : Config),
      scrape_page net pn ei (some cfg) a1 = scrape_page net pn ei (some cfg) a2) ∧
    (∀ (net : Net) (aid : Nat) (cfg a1 a2 : Config),
      get_app_details net aid (some cfg) a1 = get_app_details net aid (some cfg) a2) ∧
    (∀ (net : Net) (tp ipp : Nat) (cfg a1 a2 : Config),
      scrape_all_pages net tp ipp (some cfg) a1 = scrape_all_pages net tp ipp (some cfg) a2) ∧
    (∀ (net : Net) (cfg a1 a2 : Config),
      scrape_all net (some cfg) a1 = scrape_all net (some cfg) a2) :=
  ⟨fun _ _ _ _ _ => rfl, fun _ _ _ _ => rfl, fun _ _ _ _ _ _ => rfl,
   fun _ _ _ _ _ => rfl, fun _ _ _ _ _ _ => rfl, fun _ _ _ _ => rfl⟩

/-- Unfolding of extract_app_data on a row that passes the id and name
steps: the result is built from the split name, the positional
description column and the positional rating columns. -/
theorem extract_app_data_unfold (row : HNode) (aid : Nat) (raw : String)
    (hid : appIdOf row = some aid) (hraw : rawNameOf row = some raw) :
    extract_app_data row = some (aid, (splitNameCategory raw).1,
      (match (findAllN isColMd3 row).get? 1 with
       | some desc_col =>
         match findFirstN (isElem "small") desc_col with
         | some desc_small => stripStr (getTextN desc_small)
         | none => ""
       | none => ""),
      (splitNameCategory raw).2,
      extract_rating_count ((findAllN isClassDiv row).get? 2),
      extract_rating_count ((findAllN isClassDiv row).get? 3)) := by
  rw [appIdOf] at hid
  rw [rawNameOf] at hraw
  rcases hb : findFirstN isNameCol row with _ | ncol
  · rw [hb] at hraw
    simp at hraw
  rw [hb] at hraw
  simp only [Option.some_bind] at hraw
  rcases hb2 : findFirstN (isElem "b") ncol with _ | nbold
  · rw [hb2] at hraw
    simp at hraw
  rw [hb2] at hraw
  have hrw : stripStr (getTextN nbold) = raw := by simpa using hraw
  rw [extract_app_data, hid]
  dsimp only
  rw [hb]
  dsimp only
  rw [hb2]
  dsimp only
  rw [hrw]

/-- C6 (amended): the risk of an extracted row is the filled-icon count of
the 3rd class-bearing div among the descendants of the row in document order
(not its children), and the popularity that of the 4th; a column with
three filled and two unfilled icons counts 3; a column with six filled
icons counts 6, so the extractor imposes no clamp to the 0..5 range. -/
theorem risk_popularity_descendant_columns :
    (∀ row aid n d c r po,
      extract_app_data row = some (aid, n, d, c, r, po) →
      r = extract_rating_count ((findAllN isClassDiv row).get? 2) ∧
      po = extract_rating_count ((findAllN isClassDiv row).get? 3)) ∧
    extract_rating_count (some col32) = 3 ∧
    extract_rating_count (some col6) = 6 := by
  refine ⟨?_, rfl, rfl⟩
  intro row aid n d c r po h
  rw [extract_app_data] at h
  rcases h1 : findAppcontrolId ((attrOf row "onclick").getD "") with _ | a
  · rw [h1] at h
    exact absurd h (by simp)
  rw [h1] at h
  dsimp only at h
  rcases h2 : findFirstN isNameCol row with _ | ncol
  · rw [h2] at h
    exact absurd h (by simp)
  rw [h2] at h
  dsimp only at h
  rcases h3 : findFirstN (isElem "b") ncol with _ | nbold
  · rw [h3] at h
    exact absurd h (by simp)
  rw [h3] at h
  dsimp only at h
  simp only [Option.some.injEq, Prod.mk.injEq] at h
  obtain ⟨-, -, -, -, hr, hp⟩ := h
  exact ⟨hr.symm, hp.symm⟩

/-- C6 witness: the general positional equations applied to the minimal
fixture row. -/
theorem risk_popularity_descendant_columns_witness :
    (0 : Nat) = extract_rating_count ((findAllN isClassDiv rowW1).get? 2) ∧
    (0 : Nat) = extract_rating_count ((findAllN isClassDiv rowW1).get? 3) :=
  risk_popularity_descendant_columns.1 rowW1 1 "Name" "" "" 0 0 (by decide)

/-- C6 counterexample: in the nested fixture row the 4th class-bearing
child div holds five filled icons, yet extract_app_data reports
popularity 2, because the source indexes class-bearing descendant divs,
not child divs. -/
theorem popularity_child_ordinal_counterexample :
    extract_rating_count (((childrenOf rowC6).filter isClassDiv).get? 3) = 5 ∧
    extract_app_data rowC6 = some (1, "Name", "", "", 2, 2) ∧
    (2 : Nat) ≠ 5 := by
  refine ⟨by decide, by decide, by decide⟩

/-- C10: a row whose id and raw name extract successfully is still
returned as a record when it has fewer than three (respectively four)
class-bearing descendant divs, with risk (respectively popularity)
zero. -/
theorem extract_app_data_missing_columns (row : HNode) (aid : Nat) (raw : String)
    (hid : appIdOf row = some aid) (hraw : rawNameOf row = some raw) :
    (extract_app_data row).isSome = true ∧
    ((findAllN isClassDiv row).length < 3 →
      (extract_app_data row).map (fun t => t.2.2.2.2.1) = some 0) ∧
    ((findAllN isClassDiv row).length < 4 →
      (extract_app_data row).map (fun t => t.2.2.2.2.2) = some 0) := by
  have h := extract_app_data_unfold row aid raw hid hraw
  rw [h]
  refine ⟨rfl, ?_, ?_⟩
  · intro hlen
    have h0 : (findAllN isClassDiv row).get? 2 = none := List.get?_eq_none.mpr (by omega)
    dsimp only [Option.map]
    rw [h0]
    rfl
  · intro hlen
    have h0 : (findAllN isClassDiv row).get? 3 = none := List.get?_eq_none.mpr (by omega)
    dsimp only [Option.map]
    rw [h0]
    rfl

/-- C10 witness: the minimal fixture row has a single class-bearing div,
and the record is still produced with zero risk and popularity. -/
theorem extract_app_data_missing_columns_witness :
    (extract_app_data rowW1).isSome = true ∧
    ((findAllN isClassDiv rowW1).length < 3 →
      (extract_app_data rowW1).map (fun t => t.2.2.2.2.1) = some 0) ∧
    ((findAllN isClassDiv rowW1).length < 4 →
      (extract_app_data rowW1).map (fun t => t.2.2.2.2.2) = some 0) :=
  extract_app_data_missing_columns rowW1 1 "Name" rfl rfl

/-- C1: get_app_details never propagates a failure: whenever the detail
fetch yields no document, it returns the dictionary with exactly the six
detail keys, each empty; and every partial record whose detail fetch
fails is still present in the scrape_all_pages output with those six
fields empty. -/
theorem get_app_details_never_fails :
    (∀ (net : Net) (aid : Nat) (cfgOpt : Option Config) (ambient : Config),
      net (detailUrl (cfgOpt.getD ambient) aid) 0 = none →
      get_app_details net aid cfgOpt ambient =
        [("default_ports", ""), ("affected_products", ""), ("impact", ""),
         ("technology", ""), ("behavior", ""), ("references", "")]) ∧
    (∀ (net : Net) (tp ipp : Nat) (cfg ambient : Config)
      (a : Nat × String × String × String × Nat × Nat),
      a ∈ allPartialRecords net tp ipp cfg →
      net (detailUrl cfg a.1) 0 = none →
      ({ app_id := a.1, app_name := a.2.1, description := a.2.2.1,
         category := a.2.2.2.1, risk := a.2.2.2.2.1, popularity := a.2.2.2.2.2,
         default_ports := "", affected_products := "", impact := "",
         technology := "", behavior := "", references := "" } : OutRec) ∈
        scrape_all_pages net tp ipp (some cfg) ambient) := by
  constructor
  · intro net aid cfgOpt ambient h
    rw [get_app_details, h]
    rfl
  · intro net tp ipp cfg ambient a ha hnet
    rw [scrape_all_pages]
    refine List.mem_map.mpr ⟨a, ha, ?_⟩
    have hd : get_app_details net a.1 (some cfg) ambient = initDetails := by
      rw [get_app_details]
      simp only [Option.getD_some]
      rw [hnet]
    simp only [Option.getD_some]
    rw [hd]
    rfl

/-- C1 witness: with a network serving one single-row page and failing
every detail URL, the record of application 1 appears in the final output
with all six detail fields empty. -/
theorem get_app_details_never_fails_witness :
    ({ app_id := 1, app_name := "Name", description := "", category := "",
       risk := 0, popularity := 0, default_ports := "", affected_products := "",
       impact := "", technology := "", behavior := "", references := "" } : OutRec) ∈
      scrape_all_pages netC1 1 1 (some cfgW) cfgW :=
  get_app_details_never_fails.2 netC1 1 1 cfgW cfgW (1, "Name", "", "", 0, 0)
    (by decide) rfl

/-- Updating a key and reading it back yields the written value,
whichever way dictSet stored it. -/
theorem dictGet_dictSet_self (d : List (String × String)) (k v x : String) :
    dictGet (dictSet d k v) k x = v := by
  rw [dictSet]
  by_cases hany : (d.any (fun kv => kv.1 == k)) = true
  · rw [if_pos hany, dictGet]
    have hfind : ∀ l : List (String × String), (l.any (fun kv => kv.1 == k)) = true →
        ((l.map (fun kv => if kv.1 == k then (k, v) else kv)).find?
          (fun kv => kv.1 == k)) = some (k, v) := by
      intro l
      induction l with
      | nil => intro h; simp at h
      | cons hd tl ih =>
        intro hl
        by_cases h1 : (hd.1 == k) = true
        · simp [List.find?, h1]
        · simp only [List.any_cons, Bool.or_eq_true] at hl
          rcases hl with hl | hl
          · exact absurd hl h1
          · simp only [List.map, h1, Bool.false_eq_true, if_false]
            simp only [List.find?, h1]
            exact ih hl
    rw [hfind d hany]
  · rw [if_neg hany, dictGet]
    have hfind : ∀ l : List (String × String), (l.any (fun kv => kv.1 == k)) = false →
        ((l ++ [(k, v)]).find? (fun kv => kv.1 == k)) = some (k, v) := by
      intro l
      induction l with
      | nil => intro _; simp [List.find?]
      | cons hd tl ih =>
        intro hl
        simp only [List.any_cons, Bool.or_eq_false_iff] at hl
        simp only [List.cons_append, List.find?, hl.1]
        exact ih hl.2
    rw [hfind d (by simp only [Bool.not_eq_true] at hany; exact hany)]

/-- Updating one key leaves the value read at a different key
unchanged. -/
theorem dictGet_dictSet_ne (d : List (String × String)) (k v k' x : String)
    (h : k' ≠ k) : dictGet (dictSet d k v) k' x = dictGet d k' x := by
  have hbk : (k == k') = false := by
    simp only [beq_eq_false_iff_ne]
    exact fun hh => h hh.symm
  rw [dictSet]
  by_cases hany : (d.any (fun kv => kv.1 == k)) = true
  · rw [if_pos hany, dictGet, dictGet]
    have hfind : ∀ l : List (String × String),
        ((l.map (fun kv => if kv.1 == k then (k, v) else kv)).find?
          (fun kv => kv.1 == k')) = l.find? (fun kv => kv.1 == k') := by
      intro l
      induction l with
      | nil => rfl
      | cons hd tl ih =>
        by_cases h1 : (hd.1 == k) = true
        · have h2 : (hd.1 == k') = false := by
            have : hd.1 = k := by simpa using h1
            rw [this]
            exact hbk
          simp only [List.map, h1, if_true]
          simp only [List.find?, hbk, h2]
          exact ih
        · simp only [List.map, h1, Bool.false_eq_true, if_false]
          by_cases h2 : (hd.1 == k') = true
          · simp only [List.find?, h2]
          · simp only [List.find?, h2, Bool.false_eq_true]
            exact ih
    rw [hfind d]
  · rw [if_neg hany, dictGet, dictGet]
    have hfind : ∀ l : List (String × String),
        ((l ++ [(k, v)]).find? (fun kv => kv.1 == k')) = l.find? (fun kv => kv.1 == k') := by
      intro l
      induction l with
      | nil => simp [List.find?, hbk]
      | cons hd tl ih =>
        by_cases h2 : (hd.1 == k') = true
        · simp only [List.cons_append, List.find?, h2]
        · simp only [List.cons_append, List.find?, h2, Bool.false_eq_true]
          exact ih
    rw [hfind d]

/-- A detail section whose heading does not mention Default Ports leaves
the default_ports entry unchanged. -/
theorem processDetailItem_preserves_dp (d : List (String × String)) (item : HNode) (x : String)
    (h : ∀ t, titleOf item = some t → containsSubStr t "Default Ports" = false) :
    dictGet (processDetailItem d item) "default_ports" x = dictGet d "default_ports" x := by
  rw [processDetailItem]
  rcases ht : titleOf item with _ | t
  · rfl
  dsimp only
  rw [h t ht]
  simp only [Bool.false_eq_true, if_false]
  repeat' split
  all_goals first
    | rfl
    | exact dictGet_dictSet_ne _ _ _ _ _ (by decide)

/-- C7: the Default Ports section with list items 80, 443, 8080 yields the
comma-space join; absence of any Default Ports heading leaves
default_ports empty; a section matching no vocabulary entry leaves the
dictionary untouched; and of several sections matching the same entry the
last one (when its branch finds its content list) overwrites the
earlier value. -/
theorem detail_vocabulary_dispatch :
    dictGet (get_app_details netC7 5 (some cfgW) cfgW) "default_ports" "" = "80, 443, 8080" ∧
    (∀ (items : List HNode) (x : String),
      (∀ item ∈ items, ∀ t, titleOf item = some t →
        containsSubStr t "Default Ports" = false) →
      dictGet (items.foldl processDetailItem initDetails) "default_ports" x = "") ∧
    (∀ (d : List (String × String)) (item : HNode),
      (∀ t, titleOf item = some t →
        containsSubStr t "Default Ports" = false ∧
        containsSubStr t "Affected Products" = false ∧
        containsSubStr t "Impact" = false ∧
        containsSubStr t "Technology" = false ∧
        containsSubStr t "Behavior" = false ∧
        containsSubStr t "References" = false) →
      processDetailItem d item = d) ∧
    (∀ (pre : List HNode) (d : List (String × String)) (item : HNode) (t : String) (ul : HNode),
      titleOf item = some t → containsSubStr t "Default Ports" = true →
      findFirstN (isElem "ul") item = some ul →
      dictGet ((pre ++ [item]).foldl processDetailItem d) "default_ports" "" =
        joinComma (liTexts ul)) := by
  refine ⟨by decide, ?_, ?_, ?_⟩
  · intro items x h
    have key : ∀ (l : List HNode) (d : List (String × String)),
        (∀ item ∈ l, ∀ t, titleOf item = some t →
          containsSubStr t "Default Ports" = false) →
        dictGet (l.foldl processDetailItem d) "default_ports" x =
          dictGet d "default_ports" x := by
      intro l
      induction l with
      | nil => intro d _; rfl
      | cons hd tl ih =>
        intro d hl
        rw [List.foldl_cons]
        rw [ih (processDetailItem d hd) (fun item hm => hl item (List.mem_cons_of_mem _ hm))]
        exact processDetailItem_preserves_dp d hd x (hl hd (List.mem_cons_self _ _))
    rw [key items initDetails h]
    rfl
  · intro d item h
    rw [processDetailItem]
    rcases ht : titleOf item with _ | t
    · rfl
    dsimp only
    obtain ⟨h1, h2, h3, h4, h5, h6⟩ := h t ht
    rw [h1, h2, h3, h4, h5, h6]
    rfl
  · intro pre d item t ul ht hdp hul
    rw [List.foldl_append, List.foldl_cons, List.foldl_nil]
    rw [processDetailItem, ht]
    dsimp only
    rw [hdp]
    simp only [if_true]
    rw [hul]
    exact dictGet_dictSet_self _ _ _ _

/-- C7 witness: the last-wins equation applied to the concrete Default
Ports section. -/
theorem detail_vocabulary_dispatch_witness :
    dictGet (([] ++ [itemDP]).foldl processDetailItem initDetails) "default_ports" "" =
      joinComma (liTexts ulDP) :=
  detail_vocabulary_dispatch.2.2.2 [] initDetails itemDP "Default Ports" ulDP rfl rfl rfl

/-- C8 (amended): the output ids of scrape_all_pages are a permutation of
the ids of the scraped partial records — the same ids with the same
multiplicities, in an order the source leaves unspecified (the second
round collects detail results in pool-completion order); the pipeline
introduces no duplicates of its own, so the output ids are pairwise
distinct whenever the scraped ids are. -/
theorem output_ids_are_scraped_ids (net : Net) (tp ipp : Nat) (cfg ambient : Config) :
    ((scrape_all_pages net tp ipp (some cfg) ambient).map (fun r => r.app_id)).Perm
      ((allPartialRecords net tp ipp cfg).map (fun a => a.1)) ∧
    (((allPartialRecords net tp ipp cfg).map (fun a => a.1)).Nodup →
      ((scrape_all_pages net tp ipp (some cfg) ambient).map (fun r => r.app_id)).Nodup) := by
  have he : (scrape_all_pages net tp ipp (some cfg) ambient).map (fun r => r.app_id) =
      (allPartialRecords net tp ipp cfg).map (fun a => a.1) := by
    rw [scrape_all_pages]
    simp only [Option.getD_some]
    rw [List.map_map]
    rfl
  constructor
  · rw [he]
  · exact fun h => he ▸ h

/-- C8 witness: a single page with a single row gives pairwise-distinct
output ids, through the general theorem. -/
theorem output_ids_are_scraped_ids_witness :
    ((scrape_all_pages netC1 1 1 (some cfgW) cfgW).map (fun r => r.app_id)).Nodup :=
  (output_ids_are_scraped_ids netC1 1 1 cfgW cfgW).2 (by decide)

/-- C8 counterexample: a network that serves the same single-row page as
page 1 and page 2 produces a completed run whose output carries the same
application id twice, so the produced ids are not pairwise distinct. -/
theorem duplicate_ids_counterexample :
    ((scrape_all_pages netC8 2 1 (some cfgW) cfgW).map (fun r => r.app_id) = [1, 1]) ∧
    ¬ ((scrape_all_pages netC8 2 1 (some cfgW) cfgW).map (fun r => r.app_id)).Nodup := by
  exact ⟨by decide, by decide⟩

/-- The retry loop of scrape_page returns the empty record list, the flat
delay slept between consecutive attempts, after running all remaining
iterations over attempts that keep yielding zero catalog rows. -/
theorem scrapePageAux_zero_rows (net : Net) (url : String) (mR : Nat) (rd : ℚ) :
    ∀ fuel attempt, attempt + fuel = mR →
      (∀ i, i < mR → ∃ doc, net url i = some doc ∧ findAllN isCatalogRow doc = []) →
      scrapePageAux net url mR rd fuel attempt = ⟨[], List.replicate (fuel - 1) rd, fuel⟩ := by
  intro fuel
  induction fuel with
  | zero => intro attempt _ _; rfl
  | succ n ih =>
    intro attempt hsum h
    obtain ⟨doc, hdoc, hrows⟩ := h attempt (by omega)
    rw [scrapePageAux, hdoc]
    dsimp only
    rw [hrows]
    simp only [List.length_nil, Nat.zero_eq, beq_self_eq_true, if_true]
    rcases n with _ | m
    · have hnotlt : ¬ attempt < mR - 1 := by omega
      rw [if_neg hnotlt]
      rfl
    · have hlt : attempt < mR - 1 := by omega
      rw [if_pos hlt]
      rw [ih (attempt + 1) (by omega) h]
      rfl

/-- C3: when every attempt of a page fetch yields a document with zero
catalog rows, scrape_page runs its loop max_retries times, sleeps the
flat retry delay between consecutive attempts, and returns the empty
record sequence rather than an error. -/
theorem scrape_page_zero_rows (net : Net) (cfg ambient : Config) (page_num expected : Nat)
    (h : ∀ i, i < cfg.max_retries →
      ∃ doc, net (pageUrl cfg page_num) i = some doc ∧ findAllN isCatalogRow doc = []) :
    scrape_page net page_num expected (some cfg) ambient =
      ⟨[], List.replicate (cfg.max_retries - 1) cfg.retry_delay, cfg.max_retries⟩ := by
  rw [scrape_page]
  simp only [Option.getD_some]
  exact scrapePageAux_zero_rows net (pageUrl cfg page_num) cfg.max_retries cfg.retry_delay
    cfg.max_retries 0 (by omega) h

/-- C3 witness: a network that always serves an empty document makes
scrape_page run both attempts and return no records. -/
theorem scrape_page_zero_rows_witness :
    scrape_page netZ 1 10 (some cfgW) cfgW =
      ⟨[], List.replicate (cfgW.max_retries - 1) cfgW.retry_delay, cfgW.max_retries⟩ :=
  scrape_page_zero_rows netZ cfgW cfgW 1 10
    (fun _ _ => ⟨HNode.elem "html" [] [], rfl, rfl⟩)

/-- The delay after a failed connection-error attempt is the exponential
backoff. -/
theorem failDelay_conn (o : Nat → FetchOutcome) (rd : ℚ) (i : Nat)
    (h : o i = .connError) : failDelay o rd i = rd * 2 ^ i := by
  rw [failDelay, h]

/-- The delay after any other failed attempt is the flat delay. -/
theorem failDelay_other (o : Nat → FetchOutcome) (rd : ℚ) (i : Nat)
    (h : o i = .otherError) : failDelay o rd i = rd := by
  rw [failDelay, h]

/-- The success trace written as one warm-up unit per attempt plus the
classified delay after each failed attempt. -/
theorem succTrace_eq (o : Nat → FetchOutcome) (rd : ℚ) :
    ∀ k a, succTrace o rd a k =
      (List.range (k + 1)).flatMap
        (fun i => if i < k then [1, failDelay o rd (a + i)] else [1]) := by
  intro k
  induction k with
  | zero => intro a; rfl
  | succ n ih =>
    intro a
    rw [succTrace, ih (a + 1)]
    conv_rhs => rw [List.range_succ_eq_map, List.flatMap_cons, List.flatMap_map]
    rw [if_pos (Nat.succ_pos n)]
    simp only [Nat.succ_eq_add_one]
    have hfun : (fun i => if i + 1 < n + 1 then
          [(1 : ℚ), failDelay o rd (a + (i + 1))] else [1]) =
        (fun i => if i < n then [(1 : ℚ), failDelay o rd (a + 1 + i)] else [1]) := by
      funext i
      have h2 : a + (i + 1) = a + 1 + i := by omega
      rw [h2]
      by_cases h : i < n
      · rw [if_pos (by omega : i + 1 < n + 1), if_pos h]
      · rw [if_neg (by omega : ¬ i + 1 < n + 1), if_neg h]
    rw [hfun, Nat.add_zero]
    rfl

/-- The all-fail trace written the same way: no delay after the final
attempt. -/
theorem failTrace_eq (o : Nat → FetchOutcome) (rd : ℚ) :
    ∀ k a, failTrace o rd a k =
      (List.range k).flatMap
        (fun i => if i + 1 < k then [1, failDelay o rd (a + i)] else [1]) := by
  intro k
  induction k with
  | zero => intro a; rfl
  | succ n ih =>
    intro a
    rcases n with _ | m
    · rfl
    · rw [failTrace, ih (a + 1)]
      conv_rhs => rw [List.range_succ_eq_map, List.flatMap_cons, List.flatMap_map]
      rw [if_pos (by omega : 0 + 1 < m + 1 + 1)]
      simp only [Nat.succ_eq_add_one]
      have hfun : (fun i => if i + 1 + 1 < m + 1 + 1 then
            [(1 : ℚ), failDelay o rd (a + (i + 1))] else [1]) =
          (fun i => if i + 1 < m + 1 then [(1 : ℚ), failDelay o rd (a + 1 + i)] else [1]) := by
        funext i
        have h2 : a + (i + 1) = a + 1 + i := by omega
        rw [h2]
        by_cases h : i + 1 < m + 1
        · rw [if_pos (by omega : i + 1 + 1 < m + 1 + 1), if_pos h]
        · rw [if_neg (by omega : ¬ i + 1 + 1 < m + 1 + 1), if_neg h]
      rw [hfun, Nat.add_zero]
      rfl

/-- The loop of fetch_page performs at most as many attempts as it has
iterations left. -/
theorem fetchPageAux_attempts_le (o : Nat → FetchOutcome) (mR : Nat) (rd : ℚ) :
    ∀ fuel attempt, (fetchPageAux o mR rd fuel attempt).attempts ≤ fuel := by
  intro fuel
  induction fuel with
  | zero => intro attempt; exact Nat.le_refl 0
  | succ n ih =>
    intro attempt
    rcases ho : o attempt with doc | _ | _ <;> rw [fetchPageAux, ho] <;> dsimp only
    · omega
    · by_cases hlt : attempt < mR - 1
      · rw [if_pos hlt]
        show (fetchPageAux o mR rd n (attempt + 1)).attempts + 1 ≤ n + 1
        have := ih (attempt + 1)
        omega
      · rw [if_neg hlt]
        show 1 ≤ n + 1
        omega
    · by_cases hlt : attempt < mR - 1
      · rw [if_pos hlt]
        show (fetchPageAux o mR rd n (attempt + 1)).attempts + 1 ≤ n + 1
        have := ih (attempt + 1)
        omega
      · rw [if_neg hlt]
        show 1 ≤ n + 1
        omega

/-- Running the fetch loop from an attempt index at or before the first
successful attempt returns the document of that attempt, with the success
trace and one attempt per consumed outcome. -/
theorem fetchPageAux_first_success (o : Nat → FetchOutcome) (mR : Nat) (rd : ℚ) (doc : HNode) :
    ∀ fuel attempt j, attempt + fuel = mR → attempt ≤ j → j < mR →
      o j = .success doc →
      (∀ i, attempt ≤ i → i < j → ∀ d, o i ≠ .success d) →
      fetchPageAux o mR rd fuel attempt =
        ⟨some doc, succTrace o rd attempt (j - attempt), j + 1 - attempt⟩ := by
  intro fuel
  induction fuel with
  | zero => intro attempt j h1 h2 h3 _ _; omega
  | succ n ih =>
    intro attempt j h1 h2 h3 hsucc hfail
    rcases Nat.eq_or_lt_of_le h2 with heq | hlt
    · subst heq
      rw [fetchPageAux, hsucc]
      have e0 : attempt - attempt = 0 := by omega
      have e1 : attempt + 1 - attempt = 1 := by omega
      rw [e0, e1]
      rfl
    · have hne := hfail attempt (Nat.le_refl _) hlt
      have hlt2 : attempt < mR - 1 := by omega
      have es : j - attempt = (j - (attempt + 1)) + 1 := by omega
      have ea : j + 1 - attempt = (j + 1 - (attempt + 1)) + 1 := by omega
      rcases ho : o attempt with d | _ | _
      · exact absurd ho (hne d)
      · rw [fetchPageAux, ho]
        dsimp only
        rw [if_pos hlt2,
          ih (attempt + 1) j (by omega) (by omega) h3 hsucc
            (fun i hi1 hi2 => hfail i (by omega) hi2)]
        rw [es, ea, succTrace, failDelay_conn o rd attempt ho]
      · rw [fetchPageAux, ho]
        dsimp only
        rw [if_pos hlt2,
          ih (attempt + 1) j (by omega) (by omega) h3 hsucc
            (fun i hi1 hi2 => hfail i (by omega) hi2)]
        rw [es, ea, succTrace, failDelay_other o rd attempt ho]

/-- Running the fetch loop over outcomes that never succeed consumes all
remaining iterations, produces the all-fail trace and returns the
no-document signal. -/
theorem fetchPageAux_all_fail (o : Nat → FetchOutcome) (mR : Nat) (rd : ℚ) :
    ∀ fuel attempt, attempt + fuel = mR →
      (∀ i, i < mR → ∀ d, o i ≠ .success d) →
      fetchPageAux o mR rd fuel attempt = ⟨none, failTrace o rd attempt fuel, fuel⟩ := by
  intro fuel
  induction fuel with
  | zero => intro attempt _ _; rfl
  | succ n ih =>
    intro attempt h1 h
    have hne := h attempt (by omega)
    rcases ho : o attempt with d | _ | _
    · exact absurd ho (hne d)
    · rw [fetchPageAux, ho]
      dsimp only
      rcases n with _ | m
      · rw [if_neg (by omega : ¬ attempt < mR - 1)]
        rfl
      · rw [if_pos (by omega : attempt < mR - 1), ih (attempt + 1) (by omega) h]
        rw [failTrace, failDelay_conn o rd attempt ho]
    · rw [fetchPageAux, ho]
      dsimp only
      rcases n with _ | m
      · rw [if_neg (by omega : ¬ attempt < mR - 1)]
        rfl
      · rw [if_pos (by omega : attempt < mR - 1), ih (attempt + 1) (by omega) h]
        rw [failTrace, failDelay_other o rd attempt ho]

/-- C2: fetch_page makes at most max_retries attempts, sleeps the fixed
one-unit warm-up before every attempt, follows a failed attempt i by the
delay retry_delay times two to the i for a connection or TLS error and by
the flat retry_delay for any other request error, returns the parsed
document of the first successful attempt at once, and returns the
no-document signal, not an exception, when every attempt fails. -/
theorem fetch_page_retry_policy (o : Nat → FetchOutcome) (cfg ambient : Config) :
    (fetch_page o none (some cfg) ambient).attempts ≤ cfg.max_retries ∧
    (∀ j doc, j < cfg.max_retries → o j = .success doc →
      (∀ i, i < j → ∀ d, o i ≠ .success d) →
      fetch_page o none (some cfg) ambient =
        ⟨some doc,
         (List.range (j + 1)).flatMap
           (fun i => if i < j then [1, failDelay o cfg.retry_delay i] else [1]),
         j + 1⟩) ∧
    ((∀ i, i < cfg.max_retries → ∀ d, o i ≠ .success d) →
      fetch_page o none (some cfg) ambient =
        ⟨none,
         (List.range cfg.max_retries).flatMap
           (fun i => if i + 1 < cfg.max_retries then [1, failDelay o cfg.retry_delay i] else [1]),
         cfg.max_retries⟩) := by
  refine ⟨?_, ?_, ?_⟩
  · rw [fetch_page]
    simp only [Option.getD_some, Option.getD_none]
    exact fetchPageAux_attempts_le o cfg.max_retries cfg.retry_delay cfg.max_retries 0
  · intro j doc h1 h2 h3
    rw [fetch_page]
    simp only [Option.getD_some, Option.getD_none]
    rw [fetchPageAux_first_success o cfg.max_retries cfg.retry_delay doc cfg.max_retries 0 j
      (by omega) (by omega) h1 h2 (fun i _ hij => h3 i hij)]
    rw [succTrace_eq]
    simp only [Nat.sub_zero, Nat.zero_add]
  · intro h
    rw [fetch_page]
    simp only [Option.getD_some, Option.getD_none]
    rw [fetchPageAux_all_fail o cfg.max_retries cfg.retry_delay cfg.max_retries 0 (by omega) h]
    rw [failTrace_eq]
    simp only [Nat.zero_add]

/-- C2 witness: a connection error on attempt 0 followed by a success on
attempt 1 gives the document after the warm-up, the backoff of one base
delay unit times two to the zero, and a final warm-up. -/
theorem fetch_page_retry_policy_witness :
    fetch_page wOutcomes none (some cfgW3) cfgW3 = ⟨some wDoc, [1, 2, 1], 2⟩ := by
  have h := (fetch_page_retry_policy wOutcomes cfgW3 cfgW3).2.1 1 wDoc (by decide) rfl
    (by
      intro i hi d hd
      interval_cases i
      simp [wOutcomes] at hd)
  rw [h]
  have htr : (List.range (1 + 1)).flatMap
      (fun i => if i < 1 then [1, failDelay wOutcomes cfgW3.retry_delay i] else [1]) =
      [1, 2, 1] := by
    have h0 : failDelay wOutcomes cfgW3.retry_delay 0 = 2 := by
      rw [failDelay_conn wOutcomes cfgW3.retry_delay 0 (by simp [wOutcomes])]
      norm_num [cfgW3]
    simp [List.range_succ, h0]
  rw [htr]

/-- takeWhile over an append whose first part satisfies the predicate
throughout. -/
theorem takeWhile_append_all {α : Type} (p : α → Bool) (l1 l2 : List α)
    (h : ∀ x ∈ l1, p x = true) :
    (l1 ++ l2).takeWhile p = l1 ++ l2.takeWhile p := by
  induction l1 with
  | nil => rfl
  | cons a t ih =>
    rw [List.cons_append, List.takeWhile_cons, if_pos (h a (List.mem_cons_self _ _)),
      List.cons_append, ih (fun x hx => h x (List.mem_cons_of_mem _ hx))]

/-- Dropping the length of the takeWhile part drops exactly the
dropWhile part. -/
theorem drop_length_takeWhile {α : Type} (p : α → Bool) (l : List α) :
    l.drop (l.takeWhile p).length = l.dropWhile p := by
  induction l with
  | nil => rfl
  | cons a t ih =>
    by_cases h : p a = true
    · rw [List.takeWhile_cons, if_pos h, List.dropWhile_cons, if_pos h]
      simpa using ih
    · rw [List.takeWhile_cons, if_neg h, List.dropWhile_cons, if_neg h]
      rfl

/-- findParen finds the open parenthesis we planted when nothing before it
is an open parenthesis and something follows it. -/
theorem findParen_spec : ∀ (l X : List Char), X ≠ [] → (∀ c ∈ l, c ≠ '(') →
    findParen (l ++ '(' :: X) = some (l, X) := by
  intro l
  induction l with
  | nil =>
    intro X hX _
    rw [List.nil_append, findParen, if_pos rfl,
      if_neg (by simpa [List.isEmpty_iff] using hX)]
  | cons a t ih =>
    intro X hX hl
    rw [List.cons_append, findParen, if_neg (hl a (List.mem_cons_self _ _)),
      ih X hX (fun c hc => hl c (List.mem_cons_of_mem _ hc))]

/-- Whatever findParen returns decomposes its input around an open
parenthesis with a nonempty remainder. -/
theorem findParen_sound : ∀ (l b x : List Char),
    findParen l = some (b, x) → l = b ++ '(' :: x ∧ x ≠ [] := by
  intro l
  induction l with
  | nil => intro b x h; rw [findParen] at h; cases h
  | cons c t ih =>
    intro b x h
    rw [findParen] at h
    by_cases hc : c = '('
    · rw [if_pos hc] at h
      by_cases he : t.isEmpty = true
      · rw [if_pos he] at h; cases h
      · rw [if_neg he] at h
        have hb : b = [] ∧ t = x := by
          have := h
          simp only [Option.some.injEq, Prod.mk.injEq] at this
          exact ⟨this.1.symm, this.2⟩
        obtain ⟨hb1, hb2⟩ := hb
        subst hb1
        subst hb2
        subst hc
        exact ⟨rfl, by simpa [List.isEmpty_iff] using he⟩
    · rw [if_neg hc] at h
      rcases hfp : findParen t with _ | bx
      · rw [hfp] at h; cases h
      · rw [hfp] at h
        dsimp only at h
        simp only [Option.some.injEq, Prod.mk.injEq] at h
        obtain ⟨hb, hx⟩ := h
        obtain ⟨ht, hxe⟩ := ih bx.1 bx.2 (by rw [hfp])
        subst hb
        subst hx
        rw [List.cons_append, ← ht]
        exact ⟨rfl, hxe⟩

/-- The anchored search and substitution on a raw name of the shape
p ++ ( ++ X ++ ): when X is nonempty and free of close parentheses and
no open parenthesis in p is still unclosed at its end, the category is X
and the name is p with its trailing whitespace removed. -/
theorem splitNameCategory_suffix (p X : String) (hX : X ≠ "")
    (hXc : ∀ c ∈ X.data, c ≠ ')')
    (hp : ((p.data.reverse.takeWhile (fun ch => ch ≠ ')')).all (fun ch => ch ≠ '(')) = true) :
    splitNameCategory (p ++ "(" ++ X ++ ")") =
      (String.mk (rstripChars p.data), X) := by
  have hXd : X.data ≠ [] := fun h => hX (String.ext (by rw [h]))
  have hdata : (p ++ "(" ++ X ++ ")").data = p.data ++ '(' :: (X.data ++ [')']) := by
    simp [String.data_append]
  have hrev : (p ++ "(" ++ X ++ ")").data.reverse =
      ')' :: (X.data.reverse ++ '(' :: p.data.reverse) := by
    rw [hdata]
    simp [List.reverse_append]
  rw [splitNameCategory, hrev]
  dsimp only
  rw [if_pos rfl]
  have hzone : (X.data.reverse ++ '(' :: p.data.reverse).takeWhile (fun ch => ch ≠ ')') =
      X.data.reverse ++ '(' :: (p.data.reverse.takeWhile (fun ch => ch ≠ ')')) := by
    rw [takeWhile_append_all _ _ _
      (fun c hc => by
        simpa using hXc c (List.mem_reverse.mp hc)),
      List.takeWhile_cons, if_pos (by decide)]
  rw [hzone]
  have hzrev : (X.data.reverse ++ '(' :: (p.data.reverse.takeWhile (fun ch => ch ≠ ')'))).reverse =
      (p.data.reverse.takeWhile (fun ch => ch ≠ ')')).reverse ++ '(' :: X.data := by
    simp [List.reverse_append]
  rw [hzrev]
  have hnop : ∀ c ∈ (p.data.reverse.takeWhile (fun ch => ch ≠ ')')).reverse, c ≠ '(' := by
    intro c hc
    have := List.all_eq_true.mp hp c (List.mem_reverse.mp hc)
    simpa using this
  rw [findParen_spec _ _ hXd hnop]
  dsimp only
  have hsplit : X.data.reverse ++ '(' :: p.data.reverse =
      (X.data.reverse ++ '(' :: (p.data.reverse.takeWhile (fun ch => ch ≠ ')'))) ++
        p.data.reverse.dropWhile (fun ch => ch ≠ ')') := by
    rw [List.append_assoc, List.cons_append, List.takeWhile_append_dropWhile]
  have hdrop : (X.data.reverse ++ '(' :: p.data.reverse).drop
      (X.data.reverse ++ '(' :: (p.data.reverse.takeWhile (fun ch => ch ≠ ')'))).length =
      p.data.reverse.dropWhile (fun ch => ch ≠ ')') := by
    rw [hsplit, List.drop_left]
  rw [hdrop]
  have hrecomb : (p.data.reverse.dropWhile (fun ch => ch ≠ ')')).reverse ++
      (p.data.reverse.takeWhile (fun ch => ch ≠ ')')).reverse = p.data := by
    rw [← List.reverse_append, List.takeWhile_append_dropWhile, List.reverse_reverse]
  rw [hrecomb]

/-- When the raw name admits no decomposition around a trailing
parenthesized suffix, the split leaves the name unchanged and the
category empty. -/
theorem splitNameCategory_no_match (raw : String)
    (hno : ¬ ∃ p X : String, raw = p ++ "(" ++ X ++ ")" ∧ X ≠ "" ∧ ∀ c ∈ X.data, c ≠ ')') :
    splitNameCategory raw = (raw, "") := by
  rcases hrev : raw.data.reverse with _ | ⟨c, preRev⟩
  · rw [splitNameCategory, hrev]
  rw [splitNameCategory, hrev]
  dsimp only
  by_cases hc : c = ')'
  swap
  · rw [if_neg hc]
  rw [if_pos hc]
  rcases hfp : findParen ((preRev.takeWhile (fun ch => ch ≠ ')')).reverse) with _ | bx
  · rfl
  exfalso
  obtain ⟨hzone, hxe⟩ := findParen_sound _ bx.1 bx.2 (by rw [hfp])
  apply hno
  have hpre : preRev = preRev.takeWhile (fun ch => ch ≠ ')') ++
      preRev.drop (preRev.takeWhile (fun ch => ch ≠ ')')).length := by
    rw [drop_length_takeWhile, List.takeWhile_append_dropWhile]
  refine ⟨String.mk ((preRev.drop (preRev.takeWhile (fun ch => ch ≠ ')')).length).reverse ++ bx.1),
    String.mk bx.2, ?_, ?_, ?_⟩
  · apply String.ext
    have hdraw : raw.data = preRev.reverse ++ [c] := by
      conv_lhs => rw [← List.reverse_reverse raw.data]
      rw [hrev]
      simp
    rw [hdraw, hc]
    conv_lhs => rw [hpre]
    have hzone2 : preRev.takeWhile (fun ch => ch ≠ ')') =
        ((preRev.takeWhile (fun ch => ch ≠ ')')).reverse).reverse := by
      rw [List.reverse_reverse]
    simp only [String.data_append]
    rw [hzone2, hzone]
    simp [List.reverse_append]
  · intro h
    exact hxe (by simpa using congrArg String.data h)
  · intro ch hch
    have hmem : ch ∈ (preRev.takeWhile (fun ch => ch ≠ ')')).reverse := by
      rw [hzone]
      exact List.mem_append_right _ (List.mem_cons_of_mem _ hch)
    have := List.mem_takeWhile_imp (List.mem_reverse.mp hmem)
    simpa using this

/-- C5 (amended): for a row whose id and raw name extract, a raw name of
the shape p ++ ( ++ X ++ ) with X nonempty and free of close parentheses
yields category X and name p stripped of trailing whitespace provided no
open parenthesis of p is left unclosed at its end (the leftmost-match
rule of the anchored search picks the earliest viable open parenthesis);
and a raw name admitting no such decomposition is passed through
unchanged with an empty category. -/
theorem name_category_split (row : HNode) (aid : Nat) (raw : String)
    (hid : appIdOf row = some aid) (hraw : rawNameOf row = some raw) :
    (∀ p X : String, raw = p ++ "(" ++ X ++ ")" → X ≠ "" →
      (∀ c ∈ X.data, c ≠ ')') →
      ((p.data.reverse.takeWhile (fun ch => ch ≠ ')')).all (fun ch => ch ≠ '(')) = true →
      ∃ d r po, extract_app_data row =
        some (aid, String.mk (rstripChars p.data), d, X, r, po)) ∧
    ((¬ ∃ p X : String, raw = p ++ "(" ++ X ++ ")" ∧ X ≠ "" ∧ ∀ c ∈ X.data, c ≠ ')') →
      ∃ d r po, extract_app_data row = some (aid, raw, d, "", r, po)) := by
  have hu := extract_app_data_unfold row aid raw hid hraw
  constructor
  · intro p X hdec hX hXc hp
    rw [hdec, splitNameCategory_suffix p X hX hXc hp] at hu
    exact ⟨_, _, _, hu⟩
  · intro hno
    rw [splitNameCategory_no_match raw hno] at hu
    exact ⟨_, _, _, hu⟩

/-- C5 counterexample: the raw name A(B (C) ends with the parenthesized
suffix (C) with C nonempty, yet the extractor reports category B (C and
name A, because the anchored search matches from the earlier unclosed
open parenthesis. -/
theorem name_category_split_counterexample :
    ("A(B (C)" : String) = "A(B " ++ "(" ++ "C" ++ ")" ∧
    ("C" : String) ≠ "" ∧
    (∀ c ∈ ("C" : String).data, c ≠ ')') ∧
    extract_app_data rowC5 = some (77, "A", "", "B (C", 0, 0) ∧
    ("B (C" : String) ≠ "C" :=
  ⟨by decide, by decide, by decide, by decide, by decide⟩

/-- C5 witness: the specification example DNF (Update), through the
general split theorem. -/
theorem name_category_split_witness :
    ∃ d r po, extract_app_data rowDNF =
      some (59958, String.mk (rstripChars ("DNF " : String).data), d, "Update", r, po) :=
  (name_category_split rowDNF 59958 "DNF (Update)" rfl rfl).1 "DNF " "Update"
    (by decide) (by decide) (by decide) (by decide)
